import Mathlib

/-!
Verification of the computational core of the pygly2 repository against its
natural-language specification.

The development shallowly embeds the relevant Python modules:

* `pygly2/utils/multimap.py`   → `Pygly.OMM` (the `OrderedMultiMap`)
* `pygly2/structure/monosaccharide.py` → `Pygly.Mono` and its operations
* `pygly2/composition/structure_composition.py` → the composition tables
* `pygly2/io/glycoct.py`       → the GlycoCT parser state machine
* `pygly2/structure/glycan.py` → traversal, branch labeling, serialization
  and the fragmentation engine

Python `dict`/list mutation is modelled by explicit state passing; Python
exceptions by `Except`/`Option` error results.  Machine integers are `Int`;
masses are exact rationals (`ℚ`) parameterised by a mass table, mirroring the
`calculate_mass` collaborator.

Modules of the repository that are *not* present under `src/`
(`structure/link.py`, `structure/constants.py`,
`structure/crossring_fragments.py`, `io/format_constants_map.py`) are
modelled from the specification; each such definition carries a doc comment
starting with `Modelled from the spec:`.
-/

set_option linter.unusedSectionVars false

namespace Pygly

/-! ## Elemental compositions (the opaque `Composition` collaborator)

Modelled from the spec: `Composition` is an "opaque value type supporting
addition, subtraction, scalar multiplication, and monoisotopic/average mass
calculation" (§1, §6).  The claims only ever build compositions over the
elements C, H, O, N, so a composition is a quadruple of integer counts
(integers, because the structure-composition tables in
`pygly2/composition/structure_composition.py` contain negative deltas such as
`{"O": -1}`). -/

structure Composition where
  c : Int
  h : Int
  o : Int
  n : Int
deriving DecidableEq

namespace Composition

instance : Zero Composition := ⟨⟨0, 0, 0, 0⟩⟩

instance : Add Composition :=
  ⟨fun x y => ⟨x.c + y.c, x.h + y.h, x.o + y.o, x.n + y.n⟩⟩

instance : Sub Composition :=
  ⟨fun x y => ⟨x.c - y.c, x.h - y.h, x.o - y.o, x.n - y.n⟩⟩

instance : Neg Composition :=
  ⟨fun x => ⟨-x.c, -x.h, -x.o, -x.n⟩⟩


/-- `Composition("H2O")`: the water loss used throughout the fragmentation
bookkeeping. -/
def water : Composition := ⟨0, 2, 1, 0⟩

/-- `Composition("H")`. -/
def hydrogen : Composition := ⟨0, 1, 0, 0⟩

/-- `Composition("HO")`. -/
def hydroxyl : Composition := ⟨0, 1, 1, 0⟩


instance : AddCommGroup Composition where
  add_assoc a b c := by
    have ha : ∀ x y : Composition,
        x + y = ⟨x.c + y.c, x.h + y.h, x.o + y.o, x.n + y.n⟩ := fun x y => rfl
    cases a; cases b; cases c
    simp only [ha, mk.injEq]
    refine ⟨by ring, by ring, by ring, by ring⟩
  zero_add a := by
    have ha : ∀ x y : Composition,
        x + y = ⟨x.c + y.c, x.h + y.h, x.o + y.o, x.n + y.n⟩ := fun x y => rfl
    have hz : (0 : Composition) = ⟨0, 0, 0, 0⟩ := rfl
    cases a
    simp only [hz, ha, mk.injEq]
    refine ⟨by ring, by ring, by ring, by ring⟩
  add_zero a := by
    have ha : ∀ x y : Composition,
        x + y = ⟨x.c + y.c, x.h + y.h, x.o + y.o, x.n + y.n⟩ := fun x y => rfl
    have hz : (0 : Composition) = ⟨0, 0, 0, 0⟩ := rfl
    cases a
    simp only [hz, ha, mk.injEq]
    refine ⟨by ring, by ring, by ring, by ring⟩
  add_comm a b := by
    have ha : ∀ x y : Composition,
        x + y = ⟨x.c + y.c, x.h + y.h, x.o + y.o, x.n + y.n⟩ := fun x y => rfl
    cases a; cases b
    simp only [ha, mk.injEq]
    refine ⟨by ring, by ring, by ring, by ring⟩
  neg_add_cancel a := by
    have ha : ∀ x y : Composition,
        x + y = ⟨x.c + y.c, x.h + y.h, x.o + y.o, x.n + y.n⟩ := fun x y => rfl
    have hz : (0 : Composition) = ⟨0, 0, 0, 0⟩ := rfl
    have hn : ∀ x : Composition, -x = ⟨-x.c, -x.h, -x.o, -x.n⟩ := fun x => rfl
    cases a
    simp only [hn, ha, hz, mk.injEq]
    refine ⟨by ring, by ring, by ring, by ring⟩
  sub_eq_add_neg a b := by
    have ha : ∀ x y : Composition,
        x + y = ⟨x.c + y.c, x.h + y.h, x.o + y.o, x.n + y.n⟩ := fun x y => rfl
    have hn : ∀ x : Composition, -x = ⟨-x.c, -x.h, -x.o, -x.n⟩ := fun x => rfl
    have hs : ∀ x y : Composition,
        x - y = ⟨x.c - y.c, x.h - y.h, x.o - y.o, x.n - y.n⟩ := fun x y => rfl
    cases a; cases b
    simp only [hn, ha, hs, mk.injEq]
    refine ⟨by ring, by ring, by ring, by ring⟩
  nsmul := nsmulRec
  zsmul := zsmulRec

end Composition

/-- The mass-table collaborator: one exact elemental mass per element (§6:
"supplies elemental isotope masses ... for monoisotopic vs. average
calculations"). -/
structure MassTable where
  mC : ℚ
  mH : ℚ
  mO : ℚ
  mN : ℚ

/-- `Composition.calc_mass`: the mass of a composition under a mass table is
the count-weighted sum of the elemental masses. -/
def calcMass (t : MassTable) (x : Composition) : ℚ :=
  x.c * t.mC + x.h * t.mH + x.o * t.mO + x.n * t.mN

/-- The standard NIST monoisotopic masses used when no `mass_data` is
supplied, as exact rationals. -/
def monoisotopic : MassTable :=
  { mC := 12, mH := 1.00782503207, mO := 15.9949146221, mN := 14.0030740048 }


/-! ## `OrderedMultiMap` (`pygly2/utils/multimap.py`)

The Python class keeps `contents`, a `defaultdict(list)` from keys to the
list of values stored at that key, and `key_order`, the list of keys in
first-insertion order.  `contents` is modelled as an association list; a key
is present in the dict exactly when it has an entry here. -/

/-- A Python exception, by type. -/
inductive PyErr where
  | indexError
  | valueError
  | keyError
  | attributeError
deriving DecidableEq

structure OMM (K V : Type) where
  contents : List (K × List V)
  keyOrder : List K
deriving DecidableEq

namespace OMM

variable {K V : Type} [DecidableEq K] [DecidableEq V]

def empty : OMM K V := ⟨[], []⟩

/-- Dict lookup `self.contents[key]` as a pure read: the values at `key`, or
`[]` when absent (the `defaultdict` default). -/
def getList (m : OMM K V) (k : K) : List V :=
  match m.contents.find? (fun p => decide (p.1 = k)) with
  | some p => p.2
  | none => []

/-- Replace the entry for `k` in an association list (or append one). -/
def setEntry (l : List (K × List V)) (k : K) (vs : List V) : List (K × List V) :=
  if (l.find? (fun p => decide (p.1 = k))).isSome then
    l.map (fun p => if p.1 = k then (k, vs) else p)
  else
    l ++ [(k, vs)]

/-- Remove the entry for `k` from an association list (`contents.pop(key)`). -/
def dropEntry (l : List (K × List V)) (k : K) : List (K × List V) :=
  l.filter (fun p => decide (p.1 ≠ k))

/-- `OrderedMultiMap.__setitem__`: record the key in `key_order` on first
sighting, then append the value to `contents[key]`. -/
def put (m : OMM K V) (k : K) (v : V) : OMM K V :=
  { contents := setEntry m.contents k (m.getList k ++ [v])
    keyOrder := if k ∈ m.keyOrder then m.keyOrder else m.keyOrder ++ [k] }

/-- Python's `list.index(value)`: the index of the first element equal to
`value`, or a `ValueError`. -/
def listIndex (l : List V) (v : V) : Except PyErr Nat :=
  match l with
  | [] => .error .valueError
  | a :: rest => if a = v then .ok 0 else (listIndex rest v).map (· + 1)

/-- `MultiMap.pop(key, value)` (inherited unchanged by `OrderedMultiMap`):
`objs = self.contents[key]` (a `defaultdict` read, which materialises an
empty entry when the key is absent); `objs.pop(objs.index(value))`, raising
`ValueError` when `value` is not in the list; when the list becomes empty the
key is removed from `contents` — but never from `key_order`.  Returns the
post-call map together with the `len(objs)` result or the exception. -/
def pop (m : OMM K V) (k : K) (v : V) : OMM K V × Except PyErr Nat :=
  match listIndex (m.getList k) v with
  | .error e =>
      ({ m with contents := setEntry m.contents k (m.getList k) }, .error e)
  | .ok i =>
      if ((m.getList k).eraseIdx i).isEmpty then
        ({ m with contents := dropEntry m.contents k }, .ok 0)
      else
        ({ m with contents := setEntry m.contents k ((m.getList k).eraseIdx i) },
          .ok ((m.getList k).eraseIdx i).length)

/-- `OrderedMultiMap.__iter__` / `keys`: the keys in first-insertion order. -/
def keysList (m : OMM K V) : List K := m.keyOrder

/-- `OrderedMultiMap.items`: for each key in first-insertion order, its
values in insertion order. -/
def itemsList (m : OMM K V) : List (K × V) :=
  (m.keyOrder.map (fun k => (m.getList k).map (fun v => (k, v)))).flatten

/-- `MultiMap.__len__`: the total number of stored items. -/
def size (m : OMM K V) : Nat :=
  (m.keyOrder.map (fun k => (m.getList k).length)).sum

/-- `MultiMap.values` in `OrderedMultiMap` iteration order. -/
def valuesList (m : OMM K V) : List V :=
  (m.keyOrder.map (fun k => m.getList k)).flatten

/-- Build a map by a sequence of `put` calls. -/
def buildPuts (ps : List (K × V)) : OMM K V :=
  ps.foldl (fun m kv => m.put kv.1 kv.2) empty

/-- The keys of a put sequence in first-sighting order (the order the spec
promises for `OrderedMultiMap` iteration). -/
def firstKeys (ps : List (K × V)) : List K :=
  ps.foldl (fun acc kv => if kv.1 ∈ acc then acc else acc ++ [kv.1]) []

/-- The items of a put sequence, in the order `OrderedMultiMap` promises:
keys in first-sighting order, each key's values in put order. -/
def orderedItems (ps : List (K × V)) : List (K × V) :=
  ((firstKeys ps).map
    (fun k => (ps.filter (fun q => decide (q.1 = k))).map (fun q => (k, q.2)))).flatten

end OMM

/-! ## Categorical attributes (`pygly2/structure/constants.py`)

Modelled from the spec: `constants.py` is not under `src/`.  §4.2: each
attribute family "is a closed set of named values"; `SuperClass` additionally
carries "an integer backbone size", and every family has a missing/unknown
member (`Anomer[None]` resolves to the missing member, which carries the
Python value `None`). -/

inductive Anomer where
  | alpha | beta | uncyclized | x | missing
deriving DecidableEq

inductive Configuration where
  | d | l | x | missing
deriving DecidableEq

inductive Stem where
  | gro | ery | rib | ara | all | alt | glc | man | tre | xyl | lyx | gul
  | ido | gal | tal | thr | x | missing
deriving DecidableEq

inductive SuperClass where
  | sug | tri | tet | pen | hex | hep | oct | non | dec | missing
deriving DecidableEq

/-- Modelled from the spec: the Python `.value` of a `SuperClass` member, its
backbone carbon count (§3: "superclass (determines backbone carbon count and
hence valid position range 1..superclass_size)").  The missing member carries
`None`. -/
def SuperClass.sizeVal : SuperClass → Option Int
  | .sug => some 2
  | .tri => some 3
  | .tet => some 4
  | .pen => some 5
  | .hex => some 6
  | .hep => some 7
  | .oct => some 8
  | .non => some 9
  | .dec => some 10
  | .missing => none

inductive Modification where
  | d | a | keto | aldi
deriving DecidableEq

inductive RingType where
  | pyranose | furanose | openChain | x
deriving DecidableEq

/-- A backbone position: a Python `int`, or the string `x` denoting an
unknown position. -/
inductive Pos where
  | i (n : Int)
  | x
deriving DecidableEq

/-- Python 2 comparison `position > value` where `value` is an `int` or
`None` (the `.value` of a `SuperClass`): in CPython 2 numbers compare smaller
than any string, and `None` compares smaller than everything, so
`'x' > n` is `True` and `n > None` is `True`. -/
def Pos.gtVal : Pos → Option Int → Bool
  | .i a, some b => decide (b < a)
  | .i _, none => true
  | .x, _ => true

/-- Python 2 comparison `position < 1`: a string never compares smaller than
an int. -/
def Pos.ltOne : Pos → Bool
  | .i a => decide (a < 1)
  | .x => false

/-! ## Structure composition tables
(`pygly2/composition/structure_composition.py`) -/

/-- `monosaccharide_composition`: base composition per superclass; a missing
key yields an empty `Composition` (with a warning) via
`CompositionIndex.__getitem__`. -/
def monosaccharideComposition : SuperClass → Composition
  | .sug => ⟨2, 4, 2, 0⟩
  | .tri => ⟨3, 6, 3, 0⟩
  | .tet => ⟨4, 8, 4, 0⟩
  | .pen => ⟨5, 10, 5, 0⟩
  | .hex => ⟨6, 12, 6, 0⟩
  | .hep => ⟨7, 14, 7, 0⟩
  | .oct => ⟨8, 16, 8, 0⟩
  | .non => ⟨9, 18, 9, 0⟩
  | .dec => ⟨10, 20, 10, 0⟩
  | .missing => 0

/-- `modification_compositions`: each `CompositionRule` applied at a
position is its base composition plus the position shift (a `defaultdict`,
so zero off the listed positions).  `d` is `{"O": -1}`; `a` is
`{"H": -2, "O": 1}` with an extra `{"H": 2}` at position 1; `keto` is
`{"H": -2}`.  `aldi` has no entry, so `CompositionRuleIndex.__getitem__`
returns the empty default rule. -/
def modificationCompositions : Modification → Pos → Composition
  | .d, _ => ⟨0, 0, -1, 0⟩
  | .a, p => ⟨0, -2, 1, 0⟩ + (if p = .i 1 then ⟨0, 2, 0, 0⟩ else 0)
  | .keto, _ => ⟨0, -2, 0, 0⟩
  | .aldi, _ => 0

/-! ## Substituents and reduced ends -/

/-- A substituent subtree: name, own composition, and nested substituents
(`pygly2/structure/substituent.py` is summarised by §3 of the spec; only its
name, composition and nesting are observable to the claims settled here). -/
inductive Sub where
  | node (name : String) (composition : Composition) (children : List Sub)

/-- `ReducedEnd`: composition (default `H2`) and valence (default 2).  Its
own substituent attachments are not modelled: no claim attaches a
substituent to a reducing end. -/
structure Red where
  composition : Composition
  valence : Int
deriving DecidableEq

/-- `ReducedEnd()` with default arguments. -/
def defaultRed : Red := ⟨⟨0, 2, 0, 0⟩, 2⟩

/-- A value stored in a node's `modifications` multimap: either a
`Modification` enum member or a `ReducedEnd` (the reducing end is recorded at
position 1 of `modifications` by the `reducing_end` setter). -/
inductive MVal where
  | mod (m : Modification)
  | red (r : Red)
deriving DecidableEq

/-! ## `Monosaccharide` (`pygly2/structure/monosaccharide.py`)

`links` and `substituent_links` store link identifiers (indices into the
enclosing graph's link arena); for the node-local operations verified here
only their multimap structure is consulted, exactly as in the source. -/

/-- `ring_start` / `ring_end`: an int, a non-numeric string such as `x`, or
`None`. -/
inductive RingVal where
  | val (n : Int)
  | str (s : String)
  | noneV
deriving DecidableEq

structure Mono where
  id : Int
  anomer : Anomer
  configuration : List Configuration
  stem : List Stem
  superclass : SuperClass
  ringStart : RingVal
  ringEnd : RingVal
  modifications : OMM Pos MVal
  links : OMM Pos Nat
  substituentLinks : OMM Pos Nat
  composition : Composition
  reducingEnd : Option Red
deriving DecidableEq

namespace Mono

/-- `Monosaccharide.ring_type`: `ring_end - ring_start` classifies the ring;
any `TypeError` (a `None` or string operand) yields `RingType.x`. -/
def ringType (m : Mono) : RingType :=
  match m.ringStart, m.ringEnd with
  | .val s, .val e =>
      if e - s = 4 then .pyranose
      else if e - s = 3 then .furanose
      else if e - s = 0 then .openChain
      else .x
  | _, _ => .x

/-- `Monosaccharide.is_occupied(position)` with Python 2 comparison
semantics: the bounds check `position > self.superclass.value` is `True`
whenever `position` is the string `'x'` (strings compare greater than ints
and `None`), so the `'x' → 0` branch below it is unreachable; `-1` reaches
the unknown-position branch and returns 0; in-range ints count links,
modifications and substituent links at the position and subtract one when a
`keto` modification is present. -/
def isOccupied (m : Mono) (p : Pos) : Except PyErr Nat :=
  if p.gtVal m.superclass.sizeVal = true ∨
      (p.ltOne = true ∧ p ≠ .i (-1) ∧ p ≠ .x) then
    .error .indexError
  else if p = .i (-1) ∨ p = .x then
    .ok 0
  else
    .ok ((m.links.getList p).length + (m.modifications.getList p).length +
      (m.substituentLinks.getList p).length -
      (if MVal.mod .keto ∈ m.modifications.getList p then 1 else 0))

/-- The `reducing_end` setter: pop any previously recorded reducing end from
`modifications[1]`, then record the new one there and in `_reducing_end`. -/
def setReducingEnd (m : Mono) (r : Red) : Mono :=
  let m1 :=
    (match m.reducingEnd with
      | some r0 =>
          { m with modifications := (m.modifications.pop (Pos.i 1) (MVal.red r0)).1 }
      | none => m)
  { m1 with
    modifications := m1.modifications.put (Pos.i 1) (MVal.red r)
    reducingEnd := some r }

/-- `Monosaccharide.add_modification(modification, position, max_occupancy)`.
The result is the post-call state of the node paired with the exception, if
any; the occupancy check precedes every mutation, so the error paths return
the node unchanged. -/
def addModification (m : Mono) (mod : Modification) (p : Pos) (maxOcc : Nat) :
    Mono × Option PyErr :=
  match m.isOccupied p with
  | .error e => (m, some e)
  | .ok occ =>
      if occ > maxOcc then (m, some .valueError)
      else if mod = .aldi then (m.setReducingEnd defaultRed, none)
      else ({ m with
              composition := m.composition + modificationCompositions mod p
              modifications := m.modifications.put p (MVal.mod mod) }, none)

end Mono

/-- A plain β-D-glucopyranose-shaped hexose node with no attachments, built
with the standard composition for its superclass. -/
def hexBase : Mono :=
  { id := 1, anomer := .beta, configuration := [.d], stem := [.glc],
    superclass := .hex, ringStart := .val 1, ringEnd := .val 5,
    modifications := OMM.empty, links := OMM.empty,
    substituentLinks := OMM.empty,
    composition := monosaccharideComposition .hex, reducingEnd := none }

/-- Two `keto` modifications at position 2, both added through the public
API (`add_modification`; the first `keto` does not count as an occupant, so
the second add succeeds even with `max_occupancy=0`). -/
def c7KetoNode : Mono :=
  (((hexBase.addModification .keto (.i 2) 0).1).addModification .keto (.i 2) 0).1

/-- The occupancy count the claim describes: modifications plus
monosaccharide links plus substituent links at the position, with keto
modification entries excluded from the count. -/
def claimOccupancy (m : Mono) (p : Pos) : Nat :=
  (m.modifications.getList p).countP (fun v => decide (v ≠ MVal.mod .keto)) +
    (m.links.getList p).length + (m.substituentLinks.getList p).length

/-- A one-entry `OrderedMultiMap` used to exhibit the key-iteration behavior
of `pop`. -/
def c5ExampleMap : OMM Nat Nat := OMM.buildPuts [(1, 10)]

/-! ## The GlycoCT parser (`pygly2/io/glycoct.py`)

The parser is a line-oriented state machine working over the tokens produced
by `GlycoCT._read` (the input split on whitespace and semicolons).  Python
objects created by the parser live in an append-only heap; `graph` maps a
document index to the heap id of the object it denotes, `root` holds the
heap id of the first-parsed residue. -/

/-- `Substituent`: name, composition, and its `links` multimap.
Modelled from the spec: `substituent.py` is absent from `src/`; §3 gives a
substituent "name (categorical), own composition, and its own nested
substituent links", and `structure_composition.py` supplies the composition
table consulted by its constructor. -/
structure SubEnt where
  name : String
  composition : Composition
  links : OMM Pos Nat
deriving DecidableEq

/-- Modelled from the spec: the substituent composition table of
`structure_composition.py` keyed by the spelled name ("n-acetyl" resolves to
the `n_acetyl` entry); unknown names yield the empty composition with a
warning (`CompositionIndex.__getitem__`). -/
def substituentComposition (name : String) : Composition :=
  if name = "n-acetyl" then ⟨2, 5, 1, 1⟩
  else if name = "sulfate" then ⟨0, 2, 3, 0⟩
  else if name = "amino" then ⟨0, 3, 0, 1⟩
  else if name = "n-glycolyl" then ⟨2, 5, 2, 1⟩
  else if name = "phosphate" then ⟨0, 3, 3, 0⟩
  else if name = "acetyl" then ⟨2, 4, 1, 0⟩
  else if name = "methyl" then ⟨1, 4, 0, 0⟩
  else 0

/-- An object on the parser heap: a `Monosaccharide` or a `Substituent`. -/
inductive Entity where
  | res (m : Mono)
  | sub (s : SubEnt)
deriving DecidableEq

/-- A `Link` record created by `handle_linkage`. -/
structure PLink where
  docId : Option Int
  parentObj : Nat
  childObj : Nat
  parentPos : Int
  childPos : Int
  parentLoss : Composition
  childLoss : Composition
deriving DecidableEq

/-- The three section states of the machine (`START → RES → LIN`). -/
inductive SectionState where
  | start | res | lin
deriving DecidableEq

structure PState where
  heap : List Entity
  plinks : List PLink
  graph : List (Nat × Nat)
  root : Option Nat
  state : SectionState
  inRepeat : Bool
deriving DecidableEq

/-- The parser error taxonomy: the generic grammar error `GlycoCTError`, its
subclass `GlycoCTSectionUnsupported`, and Python-level exceptions escaping a
handler. -/
inductive GErr where
  | glycoctError (line : String)
  | sectionUnsupported (sec : String)
  | pyError (e : PyErr)
deriving DecidableEq

/-- The value yielded for one structure: a snapshot of the object heap and
link arena together with the root entity (`Glycan(self.root)`; a `None` root
becomes a freshly default-constructed `Monosaccharide`). -/
structure GlycanP where
  heap : List Entity
  plinks : List PLink
  rootEnt : Entity
deriving DecidableEq

/-- `Monosaccharide()` with all-default arguments, as built by
`Glycan.__init__` for a `None` root: every categorical attribute resolves to
the missing member, the ring bounds are `None`, and the composition is the
(empty) default for the missing superclass.  The random `uuid4` id is
modelled as 0; no claim observes it. -/
def defaultMono : Mono :=
  { id := 0, anomer := .missing, configuration := [.missing],
    stem := [.missing], superclass := .missing, ringStart := .noneV,
    ringEnd := .noneV, modifications := OMM.empty, links := OMM.empty,
    substituentLinks := OMM.empty, composition := 0, reducingEnd := none }

def heapGet (h : List Entity) (i : Nat) : Entity :=
  h.getD i (.res defaultMono)

def heapSet (h : List Entity) (i : Nat) (e : Entity) : List Entity :=
  h.set i e

/-- `Glycan(self.root)`: the yielded snapshot.  (`Glycan.__init__` also
reindexes, renumbering node and link ids by traversal order; the claims
settled against the parser observe only the structure, which reindexing
preserves, so the renumbering is not replayed here.) -/
def mkGlycanP (ps : PState) : GlycanP :=
  match ps.root with
  | some rid => ⟨ps.heap, ps.plinks, heapGet ps.heap rid⟩
  | none => ⟨ps.heap, ps.plinks, .res defaultMono⟩

/-! ### Token utilities (`GlycoCT._read` and the line-shape tests) -/

def isSplitChar (c : Char) : Bool :=
  c = ' ' || c = '\n' || c = '\t' || c = '\r' || c = ';'

/-- Split a character stream at whitespace/semicolons
(`re.split(r"\s|;", line)` over the whole stream). -/
def splitChars : List Char → List Char → List (List Char)
  | [], acc => [acc.reverse]
  | c :: rest, acc =>
      if isSplitChar c then acc.reverse :: splitChars rest []
      else splitChars rest (c :: acc)

/-- `GlycoCT._read`: the non-empty tokens of the input text. -/
def readTokens (s : String) : List String :=
  ((splitChars s.toList []).map (fun cs => String.mk cs)).filter
    (fun t => ¬ (t = ""))

def isDigitChar (c : Char) : Bool := decide ('0' ≤ c) && decide (c ≤ '9')

def digitsToNat (ds : List Char) : Nat :=
  ds.foldl (fun acc c => acc * 10 + (c.toNat - '0'.toNat)) 0

/-- Leading digit run of a character list. -/
def spanDigits (cs : List Char) : List Char × List Char :=
  (cs.takeWhile isDigitChar, cs.dropWhile isDigitChar)

/-- `re.search(r"^(\d+)b", line)` together with the remainder used by
`re.split` in `handle_residue_line`. -/
def residueShape (line : String) : Option (Nat × List Char) :=
  let (ds, rest) := spanDigits line.toList
  match rest with
  | 'b' :: rest2 => if ds.isEmpty then none else some (digitsToNat ds, rest2)
  | _ => none

/-- `re.search(r"^(\d+)s:", line)` with the remainder after the colon. -/
def substShape (line : String) : Option (Nat × List Char) :=
  let (ds, rest) := spanDigits line.toList
  match rest with
  | 's' :: ':' :: rest2 =>
      if ds.isEmpty then none else some (digitsToNat ds, rest2)
  | _ => none

/-- `re.search(r"^(\d+)r:", line)`. -/
def repeatShape (line : String) : Bool :=
  let (ds, rest) := spanDigits line.toList
  match rest with
  | 'r' :: ':' :: _ => !ds.isEmpty
  | _ => false

/-- `re.search(r"^(\d+):(\d+)", line)`: the quick shape test that routes a
line to `handle_linkage`. -/
def linkShape (line : String) : Bool :=
  let (ds, rest) := spanDigits line.toList
  match rest with
  | ':' :: rest2 => !ds.isEmpty && !(rest2.takeWhile isDigitChar).isEmpty
  | _ => false

/-! ### `res_pattern` (the residue-line grammar)

The regular expression is replayed as a character-level matcher: each group
is matched greedily in sequence, and `search` retries at successive start
positions.  (On this grammar the greedy group boundaries are unambiguous —
adjacent groups draw from disjoint character classes — so no backtracking is
needed.)  Scanners that advance by `dropWhile` carry a fuel argument equal
to the input length, which always suffices since every round consumes at
least one character. -/

def isAnomerChar (c : Char) : Bool := c = 'a' || c = 'b' || c = 'x' || c = 'o'

def isConfChar (c : Char) : Bool := c = 'd' || c = 'l' || c = 'x'

def isLowerChar (c : Char) : Bool := decide ('a' ≤ c) && decide (c ≤ 'z')

def isUpperChar (c : Char) : Bool := decide ('A' ≤ c) && decide (c ≤ 'Z')

/-- `[0-9x]`. -/
def isModPosChar (c : Char) : Bool := isDigitChar c || c = 'x'

/-- `[0-9a-z]`. -/
def isModNameChar (c : Char) : Bool := isDigitChar c || isLowerChar c

/-- `(?:-[dlx][a-z]+)+`, returning the matched (config, stem) pairs and the
remainder. -/
def parseConfStem : Nat → List Char → List (Char × List Char) × List Char
  | 0, cs => ([], cs)
  | fuel + 1, cs =>
      match cs with
      | '-' :: c :: rest =>
          if isConfChar c then
            let letters := rest.takeWhile isLowerChar
            if letters.isEmpty then ([], cs)
            else
              let (more, rem) := parseConfStem fuel (rest.dropWhile isLowerChar)
              ((c, letters) :: more, rem)
          else ([], cs)
      | _ => ([], cs)

/-- `(?P<indices>[0-9x]+:[0-9x]+)`. -/
def parseIndicesGroup (cs : List Char) :
    Option (List Char × List Char × List Char) :=
  let t1 := cs.takeWhile isModPosChar
  if t1.isEmpty then none
  else
    match cs.dropWhile isModPosChar with
    | ':' :: r2 =>
        let t2 := r2.takeWhile isModPosChar
        if t2.isEmpty then none
        else some (t1, t2, r2.dropWhile isModPosChar)
    | _ => none

/-- `(?P<modifications>(\|[0-9x]+:[0-9a-z]+)+)?`: the captured substring (as
characters) and the remainder. -/
def parseModsGroup : Nat → List Char → List Char × List Char
  | 0, cs => ([], cs)
  | fuel + 1, cs =>
      match cs with
      | '|' :: rest =>
          let posTok := rest.takeWhile isModPosChar
          if posTok.isEmpty then ([], cs)
          else
            match rest.dropWhile isModPosChar with
            | ':' :: r2 =>
                let nameTok := r2.takeWhile isModNameChar
                if nameTok.isEmpty then ([], cs)
                else
                  let (more, rem) :=
                    parseModsGroup fuel (r2.dropWhile isModNameChar)
                  ('|' :: posTok ++ ':' :: nameTok ++ more, rem)
            | _ => ([], cs)
      | _ => ([], cs)

/-- The named groups captured by a successful `res_pattern` match. -/
structure ResParse where
  anomerG : Option Char
  confStem : List (Char × List Char)
  superclassG : List Char
  ringTok1 : List Char
  ringTok2 : List Char
  modsStr : Option (List Char)
deriving DecidableEq

/-- `res_pattern` matched at one fixed start position. -/
def matchResAt (cs : List Char) : Option ResParse :=
  let (anomerG, cs1) :=
    (match cs with
      | c :: rest => if isAnomerChar c then (some c, rest) else (none, cs)
      | [] => (none, cs))
  let (confStem, cs2) := parseConfStem cs1.length cs1
  let cs3 := (match cs2 with | '-' :: r => r | _ => cs2)
  let sc := cs3.takeWhile isUpperChar
  if sc.isEmpty then none
  else
    let cs4 := cs3.dropWhile isUpperChar
    let cs5 := (match cs4 with | '-' :: r => r | _ => cs4)
    match parseIndicesGroup cs5 with
    | none => none
    | some (t1, t2, cs6) =>
        let (modsChars, _) := parseModsGroup cs6.length cs6
        some ⟨anomerG, confStem, sc, t1, t2,
          if modsChars.isEmpty then none else some modsChars⟩

/-- `res_pattern.search`: retry the anchored match at successive start
positions. -/
def searchRes : List Char → Option ResParse
  | [] => none
  | c :: rest =>
      match matchResAt (c :: rest) with
      | some r => some r
      | none => searchRes rest

/-- `modification_pattern.findall` for the pattern
`\|?(\d+):([^\|;\n]+)`: non-overlapping scan yielding (digits, value)
pairs.  Note the position group here is `\d+`, stricter than the `[0-9x]+`
of `res_pattern`: an `x` position survives group capture but is dropped by
`findall`. -/
def modFindall : Nat → List Char → List (List Char × List Char)
  | 0, _ => []
  | _, [] => []
  | fuel + 1, c :: rest =>
      let cs1 := if c = '|' then rest else c :: rest
      let ds := cs1.takeWhile isDigitChar
      let isStop := fun ch => ch = '|' || ch = ';' || ch = '\n'
      if ds.isEmpty then modFindall fuel rest
      else
        match cs1.dropWhile isDigitChar with
        | ':' :: r2 =>
            let v := r2.takeWhile (fun ch => !(isStop ch))
            if v.isEmpty then modFindall fuel rest
            else (ds, v) :: modFindall fuel (r2.dropWhile (fun ch => !(isStop ch)))
        | _ => modFindall fuel rest

/-! ### Residue construction (`handle_residue_line` and the
`Monosaccharide` constructor) -/

/-- Modelled from the spec: the io-layer `anomer_map`
(`format_constants_map.py` is absent from `src/`); an absent anomer flag
resolves to the missing member, unknown codes raise `KeyError`. -/
def anomerMapIO : Option Char → Except PyErr Anomer
  | none => .ok .missing
  | some 'a' => .ok .alpha
  | some 'b' => .ok .beta
  | some 'o' => .ok .uncyclized
  | some 'x' => .ok .x
  | some _ => .error .keyError

/-- Modelled from the spec: the io-layer `superclass_map`. -/
def superclassMapIO (s : String) : Except PyErr SuperClass :=
  if s = "SUG" then .ok .sug
  else if s = "TRI" then .ok .tri
  else if s = "TET" then .ok .tet
  else if s = "PEN" then .ok .pen
  else if s = "HEX" then .ok .hex
  else if s = "HEP" then .ok .hep
  else if s = "OCT" then .ok .oct
  else if s = "NON" then .ok .non
  else if s = "DEC" then .ok .dec
  else .error .keyError

/-- Modelled from the spec: the io-layer `modification_map`. -/
def modificationMapIO (s : String) : Except PyErr Modification :=
  if s = "d" then .ok .d
  else if s = "a" then .ok .a
  else if s = "keto" then .ok .keto
  else if s = "aldi" then .ok .aldi
  else .error .keyError

/-- Modelled from the spec: `Configuration[value]` lookup for a config
character. -/
def configurationOfChar : Char → Except PyErr Configuration
  | 'd' => .ok .d
  | 'l' => .ok .l
  | 'x' => .ok .x
  | _ => .error .keyError

/-- Modelled from the spec: `Stem[value]` lookup by name. -/
def stemOfString (s : String) : Except PyErr Stem :=
  if s = "gro" then .ok .gro
  else if s = "ery" then .ok .ery
  else if s = "rib" then .ok .rib
  else if s = "ara" then .ok .ara
  else if s = "all" then .ok .all
  else if s = "alt" then .ok .alt
  else if s = "glc" then .ok .glc
  else if s = "man" then .ok .man
  else if s = "tre" then .ok .tre
  else if s = "xyl" then .ok .xyl
  else if s = "lyx" then .ok .lyx
  else if s = "gul" then .ok .gul
  else if s = "ido" then .ok .ido
  else if s = "gal" then .ok .gal
  else if s = "tal" then .ok .tal
  else if s = "thr" then .ok .thr
  else if s = "x" then .ok .x
  else .error .keyError

/-- `try_int` applied to a ring-bound token: all-digit tokens become ints,
anything else stays a string. -/
def tryIntRing (cs : List Char) : RingVal :=
  if !cs.isEmpty && cs.all isDigitChar then .val (digitsToNat cs)
  else .str (String.mk cs)

/-- Accumulate the parsed `(position, name)` modification pairs into an
`OrderedMultiMap` in order, resolving names through `modification_map` and
positions through `try_int` (the position group is all digits). -/
def buildMods (prs : List (List Char × List Char)) :
    Except PyErr (OMM Pos MVal) :=
  prs.foldlM
    (fun acc pr => do
      let mv ← modificationMapIO (String.mk pr.2)
      pure (acc.put (Pos.i (Int.ofNat (digitsToNat pr.1))) (MVal.mod mv)))
    OMM.empty

/-- `_get_standard_composition`: superclass base plus the delta of every
modification, skipping `ReducedEnd` values and `aldi`. -/
def getStandardComposition (sc : SuperClass) (mods : OMM Pos MVal) :
    Composition :=
  mods.itemsList.foldl
    (fun base pv =>
      match pv.2 with
      | .red _ => base
      | .mod .aldi => base
      | .mod mv => base + modificationCompositions mv pv.1)
    (monosaccharideComposition sc)

/-- Thread the config/stem lookups over the matched conf-stem pairs. -/
def buildConfStem (pairs : List (Char × List Char)) :
    Except PyErr (List Configuration × List Stem) :=
  match pairs with
  | [] => .ok ([.x], [.x])
  | _ =>
      pairs.foldrM
        (fun pr acc => do
          let cfg ← configurationOfChar pr.1
          let st ← stemOfString (String.mk pr.2)
          pure (cfg :: acc.1, st :: acc.2))
        ([], [])

/-- `handle_residue_line` body: build the `Monosaccharide` for a residue
line, replaying `res_pattern.search(...).groupdict()` (a failed search is
the `AttributeError` of `None.groupdict()`), the ambiguity-insensitive
modification extraction, the `aldi` → reduced conversion, and the
constructor's composition computation. -/
def mkResidue (ix : Nat) (body : List Char) : Except GErr Mono :=
  match searchRes body with
  | none => .error (.pyError .attributeError)
  | some rp =>
      match
        (do
          let prs := modFindall (rp.modsStr.getD []).length (rp.modsStr.getD [])
          let mods ← buildMods prs
          let isReduced := decide (MVal.mod .aldi ∈ mods.getList (Pos.i 1))
          let mods2 :=
            if isReduced then (mods.pop (Pos.i 1) (MVal.mod .aldi)).1 else mods
          let cfgSt ← buildConfStem rp.confStem
          let anomer ← anomerMapIO rp.anomerG
          let sc ← superclassMapIO (String.mk rp.superclassG)
          let mods3 :=
            if isReduced then mods2.put (Pos.i 1) (MVal.red defaultRed)
            else mods2
          pure { id := (ix : Int), anomer := anomer, configuration := cfgSt.1,
                 stem := cfgSt.2, superclass := sc,
                 ringStart := tryIntRing rp.ringTok1,
                 ringEnd := tryIntRing rp.ringTok2,
                 modifications := mods3, links := OMM.empty,
                 substituentLinks := OMM.empty,
                 composition := getStandardComposition sc mods3,
                 reducingEnd :=
                   if isReduced then some defaultRed else none } :
          Except PyErr Mono)
      with
      | .ok m => .ok m
      | .error e => .error (.pyError e)

/-! ### `link_pattern` and `handle_linkage` -/

/-- The groups of a `link_pattern` match. -/
structure LinkParse where
  docIdG : Option (List Char)
  parentIdx : Nat
  parentCode : Char
  parentPosG : List Char
  childPosG : List Char
  childIdx : Nat
  childCode : Char
deriving DecidableEq

def isAtomCode (c : Char) : Bool :=
  c = 'o' || c = 'd' || c = 'h' || c = 'n' || c = 'x'

def isLinkPosChar (c : Char) : Bool := isDigitChar c || c = '-' || c = '|'

/-- The position group `-?[0-9\-\|]+` followed by a separator from `[\+\-]`:
greedy with the single backtracking step the regex needs when the separator
is `-` (the `+` separator can never be captured by the class). -/
def parseLinkPos (cs : List Char) : Option (List Char × List Char) :=
  let run := cs.takeWhile isLinkPosChar
  let rest := cs.dropWhile isLinkPosChar
  if run.isEmpty then none
  else
    match rest with
    | '+' :: r2 => some (run, r2)
    | _ =>
        match run.getLast? with
        | some '-' =>
            if run.length ≥ 2 then some (run.dropLast, rest) else none
        | _ => none

/-- `link_pattern` matched at one fixed start position. -/
def matchLinkAt (cs : List Char) : Option LinkParse :=
  let ds := cs.takeWhile isDigitChar
  match cs.dropWhile isDigitChar with
  | ':' :: r1 =>
      let pds := r1.takeWhile isDigitChar
      if pds.isEmpty then none
      else
        match r1.dropWhile isDigitChar with
        | pc :: '(' :: r2 =>
            if !isAtomCode pc then none
            else
              match parseLinkPos r2 with
              | none => none
              | some (ppos, r3) =>
                  let cposRun := r3.takeWhile isLinkPosChar
                  if cposRun.isEmpty then none
                  else
                    match r3.dropWhile isLinkPosChar with
                    | ')' :: r4 =>
                        let cds := r4.takeWhile isDigitChar
                        if cds.isEmpty then none
                        else
                          match r4.dropWhile isDigitChar with
                          | cc :: _ =>
                              if isAtomCode cc then
                                some ⟨if ds.isEmpty then none else some ds,
                                  digitsToNat pds, pc, ppos, cposRun,
                                  digitsToNat cds, cc⟩
                              else none
                          | [] => none
                    | _ => none
        | _ => none
  | _ => none

/-- `link_pattern.search`. -/
def searchLink : List Char → Option LinkParse
  | [] => none
  | c :: rest =>
      match matchLinkAt (c :: rest) with
      | some r => some r
      | none => searchLink rest

/-- Modelled from the spec: `link_replacement_composition_map`
(`format_constants_map.py` is absent from `src/`); §4.6 says "the
atom-replaced codes map to fixed loss-composition values via a lookup
table".  The concrete values do not influence the claims settled here. -/
def linkReplacementComposition : Char → Composition
  | 'o' => Composition.hydrogen
  | 'd' => Composition.hydroxyl
  | 'h' => Composition.hydrogen
  | 'n' => Composition.hydrogen
  | _ => 0

/-- `int(text.split("|")[0])`, warning (ignored here) on ambiguity. -/
def linkPosToInt (cs : List Char) : Except PyErr Int :=
  let first := cs.takeWhile (fun c => !(c = '|'))
  match first with
  | '-' :: ds =>
      if !ds.isEmpty && ds.all isDigitChar then .ok (-(digitsToNat ds : Int))
      else .error .valueError
  | ds =>
      if !ds.isEmpty && ds.all isDigitChar then .ok ((digitsToNat ds : Int))
      else .error .valueError

/-- The tuple returned by `parse_link`, already int-converted. -/
structure LinkData where
  docId : Option Int
  parentIdx : Nat
  parentLoss : Composition
  parentPos : Int
  childIdx : Nat
  childLoss : Composition
  childPos : Int
deriving DecidableEq

/-- `parse_link(line)`: a failed search raises the grammar error
`GlycoCTError("Could not interpret link")`. -/
def parseLink (line : String) : Except GErr LinkData :=
  match searchLink line.toList with
  | none => .error (.glycoctError line)
  | some lp =>
      match
        (do
          let pp ← linkPosToInt lp.parentPosG
          let cp ← linkPosToInt lp.childPosG
          pure { docId := lp.docIdG.map (fun ds => (digitsToNat ds : Int)),
                 parentIdx := lp.parentIdx,
                 parentLoss := linkReplacementComposition lp.parentCode,
                 parentPos := pp, childIdx := lp.childIdx,
                 childLoss := linkReplacementComposition lp.childCode,
                 childPos := cp } : Except PyErr LinkData)
      with
      | .ok d => .ok d
      | .error e => .error (.pyError e)

/-! ### Parser state updates -/

def assocGet (l : List (Nat × Nat)) (k : Nat) : Option Nat :=
  (l.find? (fun p => decide (p.1 = k))).map Prod.snd

def assocSet (l : List (Nat × Nat)) (k v : Nat) : List (Nat × Nat) :=
  if (l.find? (fun p => decide (p.1 = k))).isSome then
    l.map (fun p => if p.1 = k then (k, v) else p)
  else l ++ [(k, v)]

/-- Subtract a loss composition from an entity (the `Link` constructor's
`apply`). -/
def entitySubLoss (e : Entity) (loss : Composition) : Entity :=
  match e with
  | .res m => .res { m with composition := m.composition - loss }
  | .sub s => .sub { s with composition := s.composition - loss }

/-- Record a link id in an entity's position map.  Modelled from the spec
(`link.py` is absent): a link to a `Substituent` child is stored in the
parent's `substituent_links`, every other entry in `links` (§3). -/
def entityAddLink (e : Entity) (p : Pos) (lid : Nat) (childIsSub : Bool) :
    Entity :=
  match e with
  | .res m =>
      if childIsSub then
        .res { m with substituentLinks := m.substituentLinks.put p lid }
      else .res { m with links := m.links.put p lid }
  | .sub s => .sub { s with links := s.links.put p lid }

/-- `handle_linkage`: parse the line, look both endpoints up in `graph`
(`KeyError` when absent), and construct the `Link`: losses are subtracted
from both endpoints and the link is recorded in both position maps. -/
def handleLinkage (ps : PState) (line : String) : Except GErr PState :=
  match parseLink line with
  | .error e => .error e
  | .ok ld =>
      match assocGet ps.graph ld.parentIdx, assocGet ps.graph ld.childIdx with
      | none, _ => .error (.pyError .keyError)
      | _, none => .error (.pyError .keyError)
      | some pOid, some cOid =>
          let childIsSub :=
            (match heapGet ps.heap cOid with
              | .sub _ => true
              | .res _ => false)
          let lid := ps.plinks.length
          let heap1 := heapSet ps.heap pOid
            (entityAddLink (entitySubLoss (heapGet ps.heap pOid) ld.parentLoss)
              (Pos.i ld.parentPos) lid childIsSub)
          let heap2 := heapSet heap1 cOid
            (entityAddLink (entitySubLoss (heapGet heap1 cOid) ld.childLoss)
              (Pos.i ld.childPos) lid childIsSub)
          .ok { ps with
                heap := heap2
                plinks := ps.plinks ++
                  [{ docId := ld.docId, parentObj := pOid, childObj := cOid,
                     parentPos := ld.parentPos, childPos := ld.childPos,
                     parentLoss := ld.parentLoss, childLoss := ld.childLoss }] }

/-- `handle_residue_line`: build the residue, store it in `graph[ix]`, give
it `id = int(ix)`, and make it the root when none is set. -/
def handleResidueLine (ps : PState) (ix : Nat) (body : List Char) :
    Except GErr PState :=
  match mkResidue ix body with
  | .error e => .error e
  | .ok m =>
      let oid := ps.heap.length
      .ok { ps with
            heap := ps.heap ++ [.res m]
            graph := assocSet ps.graph ix oid
            root := (match ps.root with | some r => some r | none => some oid) }

/-- `handle_residue_substituent`: build the named `Substituent` and store it
in `graph[ix]` (it does not touch `root`). -/
def handleSubstituentLine (ps : PState) (ix : Nat) (body : List Char) :
    PState :=
  let name := String.mk body
  let oid := ps.heap.length
  { ps with
    heap := ps.heap ++ [.sub ⟨name, substituentComposition name, OMM.empty⟩]
    graph := assocSet ps.graph ix oid }

/-! ### The state machine (`GlycoCT.parse`) -/

def initPState : PState := ⟨[], [], [], none, .start, false⟩

/-- One token of `GlycoCT.parse`'s loop: the post-token state, an optional
yielded `Glycan`, and an optional raised error (an error aborts the parse
and never yields). -/
def stepToken (ps : PState) (line : String) : PState × Option GlycanP × Option GErr :=
  if line = "RES" then
    if ps.root ≠ none ∧ ps.inRepeat = false then
      ({ ps with state := .res, graph := [], root := none },
        some (mkGlycanP ps), none)
    else ({ ps with state := .res }, none, none)
  else if line = "LIN" then
    if ps.state ≠ .res then (ps, none, some (.glycoctError "LIN before RES"))
    else ({ ps with state := .lin }, none, none)
  else if line = "REP" then (ps, none, some (.sectionUnsupported "REP"))
  else if line = "ALT" then (ps, none, some (.sectionUnsupported "ALT"))
  else if line = "UND" then (ps, none, some (.sectionUnsupported "UND"))
  else if (residueShape line).isSome ∧ ps.state = .res then
    (match residueShape line with
      | some (ix, body) =>
          (match handleResidueLine ps ix body with
            | .ok ps2 => (ps2, none, none)
            | .error e => (ps, none, some e))
      | none => (ps, none, some (.glycoctError line)))
  else if (substShape line).isSome ∧ ps.state = .res then
    (match substShape line with
      | some (ix, body) => (handleSubstituentLine ps ix body, none, none)
      | none => (ps, none, some (.glycoctError line)))
  else if repeatShape line = true ∧ ps.state = .res then
    (ps, none, some (.sectionUnsupported "REP"))
  else if linkShape line = true ∧ ps.state = .lin then
    (match handleLinkage ps line with
      | .ok ps2 => (ps2, none, none)
      | .error e => (ps, none, some e))
  else (ps, none, some (.glycoctError line))

/-- The token loop without the end-of-input yield: accumulated glycans, the
error that stopped the run (if any), and the final state. -/
def goTokens : PState → List String → List GlycanP →
    List GlycanP × Option GErr × PState
  | ps, [], acc => (acc, none, ps)
  | ps, t :: rest, acc =>
      match stepToken ps t with
      | (ps2, yld, none) => goTokens ps2 rest (acc ++ yld.toList)
      | (ps2, yld, some e) => (acc ++ yld.toList, some e, ps2)

/-- `GlycoCT.parse` driven to exhaustion over a token list: every yielded
`Glycan`, and the error that aborted the run, if any.  End of input clears
`in_repeat` and yields `Glycan(self.root)` one final time. -/
def runTokens (ts : List String) : List GlycanP × Option GErr :=
  match goTokens initPState ts [] with
  | (acc, none, ps) =>
      (acc ++ [mkGlycanP { ps with inRepeat := false }], none)
  | (acc, some e, _) => (acc, some e)

/-- Parse a GlycoCT text end to end. -/
def parseGlycoctText (s : String) : List GlycanP × Option GErr :=
  runTokens (readTokens s)

/-! ## GlycoCT serialization (`Monosaccharide.to_glycoct`,
`Glycan.to_glycoct`) -/

def intStr (i : Int) : String :=
  if i < 0 then "-" ++ Nat.repr i.natAbs else Nat.repr i.natAbs

def posStr : Pos → String
  | .i n => intStr n
  | .x => "x"

/-- `self.ring_start if self.ring_start is not None else 'x'`. -/
def ringValStr : RingVal → String
  | .val n => intStr n
  | .str s => s
  | .noneV => "x"

/-- Modelled from the spec: the inverted io `anomer_map` used by the
serializer (beta formats as `b`, and so on). -/
def anomerStr : Anomer → String
  | .alpha => "a"
  | .beta => "b"
  | .uncyclized => "o"
  | .x => "x"
  | .missing => "x"

def configStr : Configuration → String
  | .d => "d"
  | .l => "l"
  | .x => "x"
  | .missing => "x"

def stemStr : Stem → String
  | .gro => "gro" | .ery => "ery" | .rib => "rib" | .ara => "ara"
  | .all => "all" | .alt => "alt" | .glc => "glc" | .man => "man"
  | .tre => "tre" | .xyl => "xyl" | .lyx => "lyx" | .gul => "gul"
  | .ido => "ido" | .gal => "gal" | .tal => "tal" | .thr => "thr"
  | .x => "x" | .missing => "x"

/-- Modelled from the spec: the inverted io `superclass_map`. -/
def superclassStr : SuperClass → String
  | .sug => "SUG" | .tri => "TRI" | .tet => "TET" | .pen => "PEN"
  | .hex => "HEX" | .hep => "HEP" | .oct => "OCT" | .non => "NON"
  | .dec => "DEC" | .missing => "X"

/-- `v.name` for a modification-map value (`ReducedEnd.name` is `aldi`). -/
def modNameStr : MVal → String
  | .mod .d => "d"
  | .mod .a => "a"
  | .mod .keto => "keto"
  | .mod .aldi => "aldi"
  | .red _ => "aldi"

/-- Python `sep.join(parts)`. -/
def joinSep (sep : String) : List String → String
  | [] => ""
  | [s] => s
  | s :: rest => s ++ sep ++ joinSep sep rest

/-- The residue line emitted by `Monosaccharide.to_glycoct`:
`"{ix}b:{anomer}{conf_stem}{superclass}-{ring_start}:{ring_end}{modifications}"`
with `conf_stem` the joined `-{config}{stem}` pairs, `superclass` prefixed
with `-`, and the modifications rendered `{position}:{name}` joined with `|`
and prefixed with `|` when non-empty. -/
def monoResidueLine (ix : Nat) (m : Mono) : String :=
  let confStem := joinSep ""
    ((m.configuration.zip m.stem).map
      (fun cs => "-" ++ configStr cs.1 ++ stemStr cs.2))
  let mods := joinSep "|"
    (m.modifications.itemsList.map
      (fun kv => posStr kv.1 ++ ":" ++ modNameStr kv.2))
  let modsStr := if mods = "" then "" else "|" ++ mods
  Nat.repr ix ++ "b:" ++ anomerStr m.anomer ++ confStem ++
    ("-" ++ superclassStr m.superclass) ++ "-" ++
    ringValStr m.ringStart ++ ":" ++ ringValStr m.ringEnd ++ modsStr

/-- `Glycan.to_glycoct` for a single-node glycan: the traversal visits only
the root, emitting its residue line (and one line per directly attached
substituent — none here), and the `LIN` header is written unconditionally
even when no link lines follow. -/
def glycanToGlycoctSingle (m : Mono) : String :=
  "RES\n" ++ monoResidueLine 1 m ++ "\nLIN\n"

/-! ## Structural equality (`Monosaccharide._flat_equality`,
`topological_equality`, `_match_substituents`), over a parsed glycan
snapshot. -/

def defaultPLink : PLink := ⟨none, 0, 0, 0, 0, 0, 0⟩

/-- `Monosaccharide.children()`: the links where this node is the parent, as
(position, child heap id) pairs in multimap order. -/
def gpChildren (g : GlycanP) (oid : Nat) : List (Pos × Nat) :=
  match heapGet g.heap oid with
  | .res m =>
      m.links.itemsList.filterMap
        (fun pl =>
          let l := g.plinks.getD pl.2 defaultPLink
          if l.childObj = oid then none else some (pl.1, l.childObj))
  | .sub _ => []

/-- `Monosaccharide.substituents()`: (position, substituent) pairs. -/
def gpSubstituents (g : GlycanP) (oid : Nat) : List (Pos × SubEnt) :=
  match heapGet g.heap oid with
  | .res m =>
      m.substituentLinks.itemsList.filterMap
        (fun pl =>
          let l := g.plinks.getD pl.2 defaultPLink
          let other := if l.childObj = oid then l.parentObj else l.childObj
          match heapGet g.heap other with
          | .sub s => some (pl.1, s)
          | .res _ => none)
  | .sub _ => []

/-- `Monosaccharide.total_composition()`: own composition plus every
substituent's composition plus the reducing end's.  (Substituents of
substituents do not arise in parsed structures and are not recursed.) -/
def gpTotalComposition (g : GlycanP) (oid : Nat) : Composition :=
  match heapGet g.heap oid with
  | .res m =>
      (gpSubstituents g oid).foldl (fun acc ps => acc + ps.2.composition)
        (m.composition +
          (match m.reducingEnd with
            | some r => r.composition
            | none => 0))
  | .sub s => s.composition

/-- `Monosaccharide._flat_equality(other, lengths=True)`. -/
def flatEq (g1 : GlycanP) (oid1 : Nat) (g2 : GlycanP) (oid2 : Nat) : Bool :=
  match heapGet g1.heap oid1, heapGet g2.heap oid2 with
  | .res m1, .res m2 =>
      decide (m1.anomer = m2.anomer) &&
      decide (m1.ringStart = m2.ringStart) &&
      decide (m1.ringEnd = m2.ringEnd) &&
      decide (m1.superclass = m2.superclass) &&
      decide (m1.modifications.itemsList = m2.modifications.itemsList) &&
      decide (m1.configuration = m2.configuration) &&
      decide (m1.stem = m2.stem) &&
      decide (m1.links.size = m2.links.size) &&
      decide (m1.substituentLinks.size = m2.substituentLinks.size) &&
      decide (gpTotalComposition g1 oid1 = gpTotalComposition g2 oid2)
  | _, _ => false

/-- `_match_substituents`: greedy one-pass assignment keyed by the other
side's positions. -/
def matchSubstituents (asubs bsubs : List (Pos × SubEnt)) : Bool :=
  let rec go (taken : List Pos) : List (Pos × SubEnt) → Bool
    | [] => decide (taken.length = bsubs.length)
    | (_, asub) :: arest =>
        let rec find : List (Pos × SubEnt) → Option Pos
          | [] => none
          | (bpos, bsub) :: brest =>
              if bpos ∈ taken then find brest
              else if decide (bsub.name = asub.name) &&
                  decide (bsub.composition = asub.composition) then some bpos
              else find brest
        match find bsubs with
        | some bpos => go (taken ++ [bpos]) arest
        | none => false
  go [] asubs

/-- First not-yet-claimed child of the other glycan whose subtree matches,
per the greedy strategy of `topological_equality`. -/
def findFirstChildMatch (cmp : Nat → Bool) (g2 : GlycanP)
    (taken : List (Pos × Int)) : List (Pos × Nat) → Option (Pos × Int)
  | [] => none
  | (bpos, boid) :: brest =>
      let bid := (match heapGet g2.heap boid with
        | .res m => m.id
        | .sub _ => 0)
      if (bpos, bid) ∈ taken then findFirstChildMatch cmp g2 taken brest
      else if cmp boid then some (bpos, bid)
      else findFirstChildMatch cmp g2 taken brest

/-- The greedy child-assignment loop of `topological_equality`. -/
def greedyChildren (cmp : Nat → Nat → Bool) (g2 : GlycanP) :
    List (Pos × Nat) → List (Pos × Nat) → List (Pos × Int) →
      Bool × List (Pos × Int)
  | [], _, taken => (true, taken)
  | (_, aoid) :: arest, bs, taken =>
      match findFirstChildMatch (cmp aoid) g2 taken bs with
      | some hit => greedyChildren cmp g2 arest bs (taken ++ [hit])
      | none => (false, taken)

/-- `Monosaccharide.topological_equality` (with substituents), fuelled by
recursion depth; every concrete evaluation below supplies ample fuel. -/
def topoEq : Nat → GlycanP → Nat → GlycanP → Nat → Bool
  | 0, _, _, _, _ => false
  | fuel + 1, g1, oid1, g2, oid2 =>
      flatEq g1 oid1 g2 oid2 &&
      matchSubstituents (gpSubstituents g1 oid1) (gpSubstituents g2 oid2) &&
      (let aChildren := gpChildren g1 oid1
       let bChildren := gpChildren g2 oid2
       let res := greedyChildren
         (fun aoid boid => topoEq fuel g1 aoid g2 boid) g2
         aChildren bChildren []
       res.1 && decide (res.2.length = bChildren.length))


/-! ## The glycan graph and the fragmentation engine
(`pygly2/structure/glycan.py`)

The live object graph is split into an immutable topology (node records,
link records, every node's link multimap — link creation does not occur
during fragmentation) and a dynamic state: each link's attached flag and
each node's current composition.  `Link.break_link(refund=True)` and
`Link.apply()` are modelled from the spec (§4.3; `link.py` is absent from
`src/`): breaking marks the link detached and refunds both losses, applying
re-subtracts them, and — since §4.8 requires a detached link to produce two
disjoint subtrees — traversal, `children()` and `release` see only attached
links. -/

/-- The static data of one link. -/
structure MLink where
  id : Nat
  parent : Nat
  child : Nat
  parentPos : Pos
  childPos : Pos
  parentLoss : Composition
  childLoss : Composition

/-- The static data of one monosaccharide node: its id, ring bounds, link
multimap, substituent subtrees (reachable through `substituent_links`) and
reducing end. -/
structure GNodeStatic where
  id : Nat
  ringStart : RingVal
  ringEnd : RingVal
  linksOMM : OMM Pos Nat
  subs : List Sub
  red : Option Red

structure Topology where
  nodes : List GNodeStatic
  links : List MLink

/-- The mutable part of the graph during fragmentation. -/
structure DState where
  attached : Nat → Bool
  comp : Nat → Composition

def findLink (t : Topology) (lid : Nat) : Option MLink :=
  t.links.find? (fun l => decide (l.id = lid))

def findNode (t : Topology) (nid : Nat) : Option GNodeStatic :=
  t.nodes.find? (fun n => decide (n.id = nid))

/-- `link.to(x)` / iterating a link: the other endpoint. -/
def linkOther (l : MLink) (nid : Nat) : Nat :=
  if l.parent = nid then l.child else l.parent

/-- The composition refund of one link, as a function over node ids: the
parent loss at the parent, the child loss at the child. -/
def linkDelta (t : Topology) (lid : Nat) : Nat → Composition :=
  match findLink t lid with
  | some l => fun k =>
      (if k = l.parent then l.parentLoss else 0) +
        (if k = l.child then l.childLoss else 0)
  | none => fun _ => 0

/-- `Link.break_link(refund=True)`: mark detached, refund both losses. -/
def breakLinkS (t : Topology) (s : DState) (lid : Nat) : DState :=
  { attached := Function.update s.attached lid false
    comp := s.comp + linkDelta t lid }

/-- `Link.apply()`: mark attached, re-subtract both losses. -/
def applyLinkS (t : Topology) (s : DState) (lid : Nat) : DState :=
  { attached := Function.update s.attached lid true
    comp := s.comp - linkDelta t lid }

/-- `Link.try_break_link(refund=True)`: break only when attached. -/
def tryBreakLinkS (t : Topology) (s : DState) (lid : Nat) : DState :=
  if s.attached lid then breakLinkS t s lid else s

/-- `Link.try_apply()`: apply only when detached. -/
def tryApplyLinkS (t : Topology) (s : DState) (lid : Nat) : DState :=
  if s.attached lid then s else applyLinkS t s lid

/-- The node's currently attached link ids in multimap order. -/
def attachedLinkIds (t : Topology) (s : DState) (nid : Nat) : List Nat :=
  match findNode t nid with
  | some n => (n.linksOMM.itemsList.map Prod.snd).filter s.attached
  | none => []

/-- `release(monosaccharide)`: try-break every monosaccharide link of the
node, returning the list of links actually broken (in order) with the
post-break state. -/
def releaseGo (t : Topology) : List Nat → DState → List Nat × DState
  | [], s => ([], s)
  | lid :: rest, s =>
      if s.attached lid then
        ((lid :: (releaseGo t rest (breakLinkS t s lid)).1),
          (releaseGo t rest (breakLinkS t s lid)).2)
      else releaseGo t rest s
def releaseNode (t : Topology) (s : DState) (nid : Nat) : List Nat × DState :=
  match findNode t nid with
  | some n => releaseGo t (n.linksOMM.itemsList.map Prod.snd) s
  | none => ([], s)

/-- The unmasking phase of `toggle`: re-apply the released links, in
order. -/
def unmaskList (t : Topology) (s : DState) (rel : List Nat) : DState :=
  rel.foldl (fun acc lid => tryApplyLinkS t acc lid) s

/-- `Monosaccharide.children()` under the current state: child ends of the
node's attached links where the node is the parent. -/
def childrenIds (t : Topology) (s : DState) (nid : Nat) : List Nat :=
  match findNode t nid with
  | some n =>
      n.linksOMM.itemsList.filterMap
        (fun pl =>
          match findLink t pl.2 with
          | some l =>
              if s.attached l.id then
                if l.child = nid then none else some l.child
              else none
          | none => none)
  | none => []

/-- `Monosaccharide.order()`: child count plus substituent count. -/
def nodeOrderVal (t : Topology) (s : DState) (nid : Nat) : Nat :=
  (childrenIds t s nid).length +
    (match findNode t nid with
      | some n => n.subs.length
      | none => 0)

/-- Python's stable ascending `sorted(..., key=methodcaller("order"))`,
rendered as a structurally recursive stable insertion sort (all stable
sorts agree for a total preorder key): a newly inserted element lands
after every element of equal or smaller key. -/
def insertByOrder (t : Topology) (s : DState) (k : Nat) : List Nat → List Nat
  | [] => [k]
  | x :: xs =>
      if nodeOrderVal t s x ≤ nodeOrderVal t s k then
        x :: insertByOrder t s k xs
      else k :: x :: xs

def sortByOrder (t : Topology) (s : DState) (l : List Nat) : List Nat :=
  l.foldl (fun acc k => insertByOrder t s k acc) []

/-- Both endpoints of every attached link of the node, in multimap order
(`for pos, link in node.links.items() for terminal in link`). -/
def linkTerminals (t : Topology) (s : DState) (nid : Nat) : List Nat :=
  match findNode t nid with
  | some n =>
      (n.linksOMM.itemsList.filterMap
        (fun pl =>
          match findLink t pl.2 with
          | some l => if s.attached l.id then some [l.parent, l.child] else none
          | none => none)).flatten
  | none => []

/-- `Glycan.depth_first_traversal`: stack-based, children explored in
descending `order()` (a stable ascending sort is pushed, and the stack pops
from the top).  Fuelled; every use supplies `t.nodes.length` which bounds
the number of pops on tree-shaped graphs. -/
def dfsGo (t : Topology) (s : DState) : Nat → List Nat → List Nat → List Nat
  | 0, _, _ => []
  | _ + 1, [], _ => []
  | fuel + 1, nid :: stack, visited =>
      let visited2 := visited ++ [nid]
      let terminals :=
        (linkTerminals t s nid).filter (fun k => decide (k ∉ visited2))
      let pushed := (sortByOrder t s terminals).reverse
      nid :: dfsGo t s fuel (pushed ++ stack) visited2

def dfsNodes (t : Topology) (s : DState) (root : Nat) : List Nat :=
  dfsGo t s (t.nodes.length + 1) [root] []

/-- Keep only the first occurrence of each element. -/
def dedupFirst : List Nat → List Nat → List Nat
  | [], _ => []
  | x :: xs, seen =>
      if x ∈ seen then dedupFirst xs seen
      else x :: dedupFirst xs (seen ++ [x])

/-- `Glycan.iterlinks()`: every link id in each visited node's multimap, in
traversal discovery order, each yielded once. -/
def iterLinkIds (t : Topology) (s : DState) (root : Nat) : List Nat :=
  dedupFirst
    ((dfsNodes t s root).map
      (fun nid =>
        match findNode t nid with
        | some n => n.linksOMM.itemsList.map Prod.snd
        | none => [])).flatten []

mutual
/-- `Substituent.mass()`: a substituent subtree's mass. -/
def subMassF (mt : MassTable) : Sub → ℚ
  | .node _ c children => calcMass mt c + subMassListF mt children
def subMassListF (mt : MassTable) : List Sub → ℚ
  | [] => 0
  | s :: rest => subMassF mt s + subMassListF mt rest
end

/-- `Monosaccharide.mass()` under the current state: the node's current
composition plus its substituents' masses plus the reducing end's mass. -/
def nodeMass (t : Topology) (mt : MassTable) (s : DState) (nid : Nat) : ℚ :=
  calcMass mt (s.comp nid) +
    (match findNode t nid with
      | some n =>
          subMassListF mt n.subs +
            (match n.red with
              | some r => calcMass mt r.composition
              | none => 0)
      | none => 0)

/-- `Glycan.mass()`: the sum of every reachable node's mass. -/
def glycanMass (t : Topology) (mt : MassTable) (s : DState) (root : Nat) : ℚ :=
  ((dfsNodes t s root).map (fun nid => nodeMass t mt s nid)).sum

mutual
def subComp (x : Sub) : Composition :=
  match x with
  | .node _ c children => c + subCompList children
def subCompList : List Sub → Composition
  | [] => 0
  | s :: rest => subComp s + subCompList rest
end

/-- `Monosaccharide.total_composition()` under the current state. -/
def nodeTotalComp (t : Topology) (s : DState) (nid : Nat) : Composition :=
  s.comp nid +
    (match findNode t nid with
      | some n =>
          subCompList n.subs +
            (match n.red with
              | some r => r.composition
              | none => 0)
      | none => 0)

/-- `Glycan.total_composition()`. -/
def glycanTotalComp (t : Topology) (s : DState) (root : Nat) : Composition :=
  ((dfsNodes t s root).map (fun nid => nodeTotalComp t s nid)).foldl
    (fun a b => a + b) 0

/-- `Monosaccharide.ring_type` from the static node record. -/
def nodeRingType (n : GNodeStatic) : RingType :=
  match n.ringStart, n.ringEnd with
  | .val rs, .val re =>
      if re - rs = 4 then .pyranose
      else if re - rs = 3 then .furanose
      else if re - rs = 0 then .openChain
      else .x
  | _, _ => .x

/-- The requested Domon–Costello ion kinds (`kind = set(kind)`). -/
structure KindSel where
  a : Bool
  b : Bool
  c : Bool
  x : Bool
  y : Bool
  z : Bool
deriving DecidableEq

/-- `fragment_shift`: the neutral-composition shift per ion series. -/
def fragmentShiftB : Composition := ⟨0, 2, 1, 0⟩
def fragmentShiftY : Composition := 0
def fragmentShiftC : Composition := 0
def fragmentShiftZ : Composition := ⟨0, 2, 1, 0⟩

/-- One yield of `break_links`: ion type, broken link ids, included node
ids, and the mass. -/
structure RawFrag where
  kind : String
  linkIds : List Nat
  include2 : List Nat
  mass : ℚ
deriving DecidableEq

/-- Modelled from the spec: `enumerate_cleavage_pairs`
(`crossring_fragments.py` is absent from `src/`); §4.8.4 enumerates "every
valid ring-bond cut-point pair on that residue", here every ordered pair of
distinct positions within the closed ring's bounds. -/
def cleavagePairs (n : GNodeStatic) : List (Nat × Nat) :=
  match n.ringStart, n.ringEnd with
  | .val rs, .val re =>
      if 0 ≤ rs ∧ rs < re then
        ((List.range (re - rs).toNat).map
          (fun i => (rs.toNat + i, rs.toNat + i + 1)))
      else []
  | _, _ => []

/-- Modelled from the spec: the A/X fragment values produced for one
cleavage pair.  `crossring_fragments.py` is absent from `src/` and the spec
gives no composition formulas for the virtual residues, so the enumeration
is left empty; no claim settled here consumes A/X fragment values, only the
state restoration around them. -/
def crossringFragValues (_n : GNodeStatic) (_pair : Nat × Nat) :
    List RawFrag := []

/-- The crossring block of `break_links` (both depth branches share this
state shape, glycan.py:899-939 and 958-998): re-apply the broken link, and
for every cleavage pair mask the child residue (`residue_toggle` first
phase: `release`), enumerate the A/X fragments of the two virtual residues
(state-neutral: the virtual residues and their links live outside the
residue graph, and the recursive enumeration below them restores its
state), unmask, and finally re-break the link with refund if it is still
attached. -/
def crossringStep (t : Topology) (s : DState) (childId lid : Nat)
    (n : GNodeStatic) : List RawFrag × DState :=
  let pr := (cleavagePairs n).foldl
    (fun (acc : List RawFrag × DState) pair =>
      (acc.1 ++ crossringFragValues n pair,
        unmaskList t (releaseNode t acc.2 childId).2
          (releaseNode t acc.2 childId).1))
    ([], applyLinkS t s lid)
  if pr.2.attached lid then (pr.1, breakLinkS t pr.2 lid) else pr

/-- The body of one iteration of the `break_links` loop for an attached,
unvisited link, with the trailing `finally` that re-applies the link when it
is left detached.  `recFn` performs the recursive `break_links` calls when
more cleavages remain (`m > 0`). -/
def processOne (t : Topology) (mt : MassTable) (m : Nat) (kind : KindSel)
    (recFn : DState → Nat → List RawFrag × DState) (s : DState) (lid : Nat) :
    List RawFrag × DState :=
  match findLink t lid with
  | none => ([], s)
  | some l =>
        let s1 := breakLinkS t s lid
        let parent := l.parent
        let child := l.child
        let core :=
          if m > 0 then
            let pr := recFn s1 parent
            let cr := recFn pr.2 child
            let s3 := cr.2
            let yFrags := if kind.y then pr.1.map (fun f =>
              ⟨f.kind ++ "Y", f.linkIds ++ [lid], f.include2,
                f.mass - calcMass mt fragmentShiftY⟩) else []
            let zFrags := if kind.z then pr.1.map (fun f =>
              ⟨f.kind ++ "Z", f.linkIds ++ [lid], f.include2,
                f.mass - calcMass mt fragmentShiftZ⟩) else []
            let bFrags := if kind.b then cr.1.map (fun f =>
              ⟨f.kind ++ "B", f.linkIds ++ [lid], f.include2,
                f.mass - calcMass mt fragmentShiftB⟩) else []
            let cFrags := if kind.c then cr.1.map (fun f =>
              ⟨f.kind ++ "C", f.linkIds ++ [lid], f.include2,
                f.mass - calcMass mt fragmentShiftC⟩) else []
            let glyco := yFrags ++ zFrags ++ bFrags ++ cFrags
            (match findNode t child with
              | some n =>
                  if (kind.a || kind.x) &&
                      !(nodeRingType n = .x) && !(nodeRingType n = .openChain)
                  then
                    let xr := crossringStep t s3 child lid n
                    (glyco ++ xr.1, xr.2)
                  else (glyco, s3)
              | none => (glyco, s3))
          else
            let parentInclude := dfsNodes t s1 parent
            let childInclude := dfsNodes t s1 child
            let yFrags := if kind.y then
              [(⟨"Y", [lid], parentInclude,
                glycanMass t mt s1 parent - calcMass mt fragmentShiftY⟩ :
                RawFrag)] else []
            let zFrags := if kind.z then
              [(⟨"Z", [lid], parentInclude,
                glycanMass t mt s1 parent - calcMass mt fragmentShiftZ⟩ :
                RawFrag)] else []
            let bFrags := if kind.b then
              [(⟨"B", [lid], childInclude,
                glycanMass t mt s1 child - calcMass mt fragmentShiftB⟩ :
                RawFrag)] else []
            let cFrags := if kind.c then
              [(⟨"C", [lid], childInclude,
                glycanMass t mt s1 child - calcMass mt fragmentShiftC⟩ :
                RawFrag)] else []
            let glyco := yFrags ++ zFrags ++ bFrags ++ cFrags
            (match findNode t child with
              | some n =>
                  if (kind.a || kind.x) &&
                      !(nodeRingType n = .x) && !(nodeRingType n = .openChain)
                  then
                    let xr := crossringStep t s1 child lid n
                    (glyco ++ xr.1, xr.2)
                  else (glyco, s1)
              | none => (glyco, s1))
        if core.2.attached lid then core
        else (core.1, applyLinkS t core.2 lid)

/-- The `for pos, link in self.iterlinks()` loop: visited and detached links
are skipped, every other link id runs `processOne`. -/
def processLids (t : Topology) (mt : MassTable) (m : Nat) (kind : KindSel)
    (visited : List Nat)
    (recFn : DState → Nat → List RawFrag × DState) :
    List Nat → DState → List RawFrag × DState
  | [], s => ([], s)
  | lid :: rest, s =>
      if lid ∈ visited then processLids t mt m kind visited recFn rest s
      else if s.attached lid = false then
        processLids t mt m kind visited recFn rest s
      else
        let one := processOne t mt m kind recFn s lid
        let more := processLids t mt m kind visited recFn rest one.2
        (one.1 ++ more.1, more.2)

/-- `Glycan.break_links(n_links, kind, ...)`: decrement the cleavage
counter (`m = n_links - 1`), enumerate the links of the graph in
`iterlinks` order, and run the loop body over them; when `m > 0` (that is,
`n_links ≥ 2`) the body recurses into both subtrees with the decremented
counter, otherwise the terminal branch runs and the recursion argument is
never consulted. -/
def breakLinks (t : Topology) (mt : MassTable) :
    Nat → DState → Nat → KindSel → List Nat → List RawFrag × DState
  | 0, s, root, kind, visited =>
      processLids t mt 0 kind visited (fun s2 _ => ([], s2))
        (iterLinkIds t s root) s
  | 1, s, root, kind, visited =>
      processLids t mt 0 kind visited (fun s2 _ => ([], s2))
        (iterLinkIds t s root) s
  | n + 2, s, root, kind, visited =>
      processLids t mt (n + 1) kind visited
        (fun s2 r2 => breakLinks t mt (n + 1) s2 r2 kind visited)
        (iterLinkIds t s root) s

/-- `Glycan.fragments(kind, max_cleavages, ..., inplace)`: iterate
`break_links(i)` for `i = min_cleavages .. max_cleavages` over `gen`, which
is `self` when `inplace` and a clone otherwise (the clone has the same
values but separate identity, so the original state is untouched).  Returns
all fragments and the post-call state of `self`. -/
def fragmentsRange (t : Topology) (mt : MassTable) (root : Nat)
    (kind : KindSel) : Nat → Nat → DState → List RawFrag × DState
  | _, 0, s => ([], s)
  | lo, n + 1, s =>
      let one := breakLinks t mt lo s root kind []
      let more := fragmentsRange t mt root kind (lo + 1) n one.2
      (one.1 ++ more.1, more.2)

def fragmentsModel (t : Topology) (mt : MassTable) (s : DState) (root : Nat)
    (kind : KindSel) (maxCleavages : Nat) (inplace : Bool) :
    List RawFrag × DState :=
  if inplace then fragmentsRange t mt root kind 1 maxCleavages s
  else
    let res := fragmentsRange t mt root kind 1 maxCleavages s
    (res.1, s)

/-- Fold `break_link` over a list of link ids. -/
def foldBreakList (t : Topology) (s : DState) (R : List Nat) : DState :=
  R.foldl (fun acc lid => breakLinkS t acc lid) s

/-- A glycan of exactly two monosaccharides joined by one glycosidic link:
root node 1 (ring 1:5) is the parent of node 2 (ring 1:5) through link 7
(parent position 4, child position 1), with the link's attachment losses
`pl` (parent side) and `cl` (child side) left symbolic. -/
def twoNodeTop (pl cl : Composition) : Topology :=
  ⟨[⟨1, .val 1, .val 5, ⟨[(.i 4, [7])], [.i 4]⟩, [], none⟩,
    ⟨2, .val 1, .val 5, ⟨[(.i 1, [7])], [.i 1]⟩, [], none⟩],
   [⟨7, 1, 2, .i 4, .i 1, pl, cl⟩]⟩

/-- The dynamic state of `twoNodeTop`: the link attached, node 1 holding
the (reduced) composition `pc`, node 2 holding `cc`. -/
def twoNodeState (pc cc : Composition) : DState :=
  ⟨fun _ => true, fun nid => if nid = 1 then pc else if nid = 2 then cc else 0⟩

/-- `kind = ("B", "Y")`. -/
def kindBY : KindSel := ⟨false, true, false, false, true, false⟩

/-- The fragment list of `fragments(kind=("B","Y"), max_cleavages=1,
inplace=False)` on the two-node glycan. -/
def c2frags (mt : MassTable) (pc cc pl cl : Composition) : List RawFrag :=
  (fragmentsModel (twoNodeTop pl cl) mt (twoNodeState pc cc) 1 kindBY 1
    false).1

/-! ## `Glycan.label_branches` (glycan.py:525-566) -/

/-- A branch label `"{sym}{num}"`: the branch symbol character and the
depth counter. -/
structure BLabel where
  sym : Char
  num : Nat
deriving DecidableEq

/-- The mutable state of `label_branches`: each link's label (`link.label`,
initially `None`), the `branch_lengths` dict (association list in insertion
order) and the enclosing `last_branch_label` variable. -/
structure LState where
  labels : Nat → Option BLabel
  branchLengths : List (Char × Nat)
  lastBranchLabel : Char

/-- `chrinc(a)` (utils/base.py): the next character. -/
def chrinc (a : Char) : Char := Char.ofNat (a.toNat + 1)

/-- `chrinc(last_branch_label) if last_branch_label != MAIN_BRANCH_SYM else
'a'`: the next fresh branch symbol. -/
def nextSym (c : Char) : Char := if c = '-' then 'a' else chrinc c

/-- `k` successive fresh symbols after `c`. -/
def symAfter : Char → Nat → Char
  | c, 0 => c
  | c, k + 1 => symAfter (nextSym c) k

/-- `branch_lengths[c]` (0 stands in for the unreachable `KeyError`: every
key looked up was inserted earlier in the run). -/
def blGet (bl : List (Char × Nat)) (c : Char) : Nat :=
  match bl.find? (fun p => decide (p.1 = c)) with
  | some p => p.2
  | none => 0

/-- `branch_lengths[c] = v`. -/
def blSet (bl : List (Char × Nat)) (c : Char) (v : Nat) : List (Char × Nat) :=
  if (bl.find? (fun p => decide (p.1 = c))).isSome then
    bl.map (fun p => if p.1 = c then (c, v) else p)
  else bl ++ [(c, v)]

/-- `get_parent_link(node)`: the position of the first parent link
(`node.parents().next()[0]`), the first link stored at that position
(`node.links[pos][0]`), and its label's branch symbol (`label[0]`);
`MAIN_BRANCH_SYM` (`'-'`) when the node has no parent (`StopIteration`) or
the link is unlabeled. -/
def getParentLink (t : Topology) (st : LState) (nid : Nat) : Char :=
  match findNode t nid with
  | none => '-'
  | some n =>
      match n.linksOMM.itemsList.filterMap
        (fun pl =>
          match findLink t pl.2 with
          | some l => if l.parent = nid then none else some pl.1
          | none => none) with
      | [] => '-'
      | pos :: _ =>
          match n.linksOMM.getList pos with
          | [] => '-'
          | lid0 :: _ =>
              match st.labels lid0 with
              | none => '-'
              | some lab => lab.sym

/-- The node's non-child links (`if link.is_child(node): continue`), in
multimap order. -/
def outLinks (t : Topology) (nid : Nat) : List Nat :=
  match findNode t nid with
  | some n =>
      n.linksOMM.itemsList.filterMap
        (fun pl =>
          match findLink t pl.2 with
          | some l => if l.child = nid then none else some pl.2
          | none => none)
  | none => []

/-- The `for link in links` loop of the branch-point case: every link gets
the next fresh symbol with depth `count + 1`, where `count` was read from
the parent branch before the loop. -/
def branchAssignGo (count : Nat) : List Nat → LState → LState
  | [], st => st
  | lid :: rest, st =>
      branchAssignGo count rest
        ⟨fun k => if k = lid then
            some ⟨nextSym st.lastBranchLabel, count + 1⟩
          else st.labels k,
         blSet st.branchLengths (nextSym st.lastBranchLabel) (count + 1),
         nextSym st.lastBranchLabel⟩

/-- One iteration of the `for node in self` loop of `label_branches`: with
exactly one non-child link, continue the parent branch (increment its
counter, label the link with the parent symbol); otherwise run the
branch-point loop over all the non-child links. -/
def labelNodeStep (t : Topology) (st : LState) (nid : Nat) : LState :=
  match outLinks t nid with
  | [lid] =>
      ⟨fun k => if k = lid then
          some ⟨getParentLink t st nid,
            blGet st.branchLengths (getParentLink t st nid) + 1⟩
        else st.labels k,
       blSet st.branchLengths (getParentLink t st nid)
         (blGet st.branchLengths (getParentLink t st nid) + 1),
       st.lastBranchLabel⟩
  | other =>
      branchAssignGo (blGet st.branchLengths (getParentLink t st nid))
        other st

/-- `Glycan.label_branches()`: fold the node step over the default
depth-first traversal, then store the maximum depth under the main-branch
key. -/
def labelBranches (t : Topology) (root : Nat) : LState :=
  let st1 := (dfsNodes t ⟨fun _ => true, fun _ => 0⟩ root).foldl
    (fun acc nid => labelNodeStep t acc nid)
    ⟨fun _ => none, [('-', 0)], '-'⟩
  ⟨st1.labels,
   blSet st1.branchLengths '-'
     ((st1.branchLengths.map Prod.snd).foldl max 0),
   st1.lastBranchLabel⟩

/-- A root (node 1) with two leaf children: node 2 through link 10 at
position 2, node 3 through link 11 at position 4. -/
def c6Top : Topology :=
  ⟨[⟨1, .val 1, .val 5,
      ⟨[(.i 2, [10]), (.i 4, [11])], [.i 2, .i 4]⟩, [], none⟩,
    ⟨2, .val 1, .val 5, ⟨[(.i 1, [10])], [.i 1]⟩, [], none⟩,
    ⟨3, .val 1, .val 5, ⟨[(.i 1, [11])], [.i 1]⟩, [], none⟩],
   [⟨10, 1, 2, .i 2, .i 1, 0, 0⟩, ⟨11, 1, 3, .i 4, .i 1, 0, 0⟩]⟩

/-- The state at the top of `label_branches`: no labels,
`branch_lengths = {'-': 0}`, `last_branch_label = '-'`. -/
def c6InitState : LState := ⟨fun _ => none, [('-', 0)], '-'⟩

/-- A hexose carrying a `d` modification at the unknown position `-1`,
built through the node API (`add_modification(Modification.d, -1)`; position
`-1` passes `is_occupied` with count 0, so the add succeeds). -/
def c1FailingNode : Mono := (hexBase.addModification .d (.i (-1)) 0).1

/-- The failing glycan as a one-node glycan snapshot. -/
def c1OriginalG : GlycanP := ⟨[Entity.res c1FailingNode], [], .res c1FailingNode⟩

/-- The glycan obtained by re-parsing the serializer's output for the
failing glycan. -/
def c1ReparsedG : GlycanP :=
  (parseGlycoctText (glycanToGlycoctSingle c1FailingNode)).1.headD
    ⟨[], [], .res defaultMono⟩

/-- The parser state after the tokens `RES`, `1s:n-acetyl`: a non-empty
in-progress graph holding only a substituent, with no root set. -/
def c9SubOnlyState : PState :=
  (goTokens initPState ["RES", "1s:n-acetyl"] []).2.2

/-- The parser state after the tokens `RES`, `1b:b-dglc-HEX-1:5`: one parsed
residue, root set to it. -/
def c9ResState : PState :=
  (goTokens initPState ["RES", "1b:b-dglc-HEX-1:5"] []).2.2

/-! ## Theorems -/

namespace Composition

theorem add_def (x y : Composition) :
    x + y = ⟨x.c + y.c, x.h + y.h, x.o + y.o, x.n + y.n⟩ := rfl

theorem zero_def : (0 : Composition) = ⟨0, 0, 0, 0⟩ := rfl

@[simp] theorem add_c (x y : Composition) : (x + y).c = x.c + y.c := rfl
@[simp] theorem add_h (x y : Composition) : (x + y).h = x.h + y.h := rfl
@[simp] theorem add_o (x y : Composition) : (x + y).o = x.o + y.o := rfl
@[simp] theorem add_n (x y : Composition) : (x + y).n = x.n + y.n := rfl

theorem sub_def (x y : Composition) :
    x - y = ⟨x.c - y.c, x.h - y.h, x.o - y.o, x.n - y.n⟩ := rfl

theorem neg_def (x : Composition) : -x = ⟨-x.c, -x.h, -x.o, -x.n⟩ := rfl

end Composition

theorem calcMass_add (t : MassTable) (x y : Composition) :
    calcMass t (x + y) = calcMass t x + calcMass t y := by
  simp [calcMass]
  ring

theorem calcMass_water_monoisotopic_pos : 0 < calcMass monoisotopic Composition.water := by
  norm_num [calcMass, monoisotopic, Composition.water]

namespace OMM

variable {K V : Type} [DecidableEq K] [DecidableEq V]

theorem find?_map_replace (c : List (K × List V)) (k : K) (vs : List V)
    (h : (c.find? (fun p => decide (p.1 = k))).isSome = true) :
    ((c.map (fun p => if p.1 = k then (k, vs) else p)).find?
      (fun p => decide (p.1 = k))) = some (k, vs) := by
  induction c with
  | nil => simp [List.find?] at h
  | cons p rest ih =>
      rw [List.find?] at h
      by_cases hp : p.1 = k
      · simp [List.find?, hp]
      · rw [decide_eq_false hp] at h
        simp only [List.map_cons, if_neg hp, List.find?, decide_eq_false hp]
        exact ih h

theorem find?_append_single (c : List (K × List V)) (k : K) (vs : List V)
    (h : c.find? (fun p => decide (p.1 = k)) = none) :
    ((c ++ [(k, vs)]).find? (fun p => decide (p.1 = k))) = some (k, vs) := by
  induction c with
  | nil => simp [List.find?]
  | cons p rest ih =>
      rw [List.find?] at h
      by_cases hp : p.1 = k
      · rw [decide_eq_true hp] at h; exact absurd h (by simp)
      · rw [decide_eq_false hp] at h
        simp only [List.cons_append, List.find?, decide_eq_false hp]
        exact ih h

theorem find?_setEntry_self (c : List (K × List V)) (k : K) (vs : List V) :
    (setEntry c k vs).find? (fun p => decide (p.1 = k)) = some (k, vs) := by
  unfold setEntry
  by_cases h : ((c.find? (fun p => decide (p.1 = k))).isSome = true)
  · rw [if_pos h]
    exact find?_map_replace c k vs h
  · rw [if_neg h]
    exact find?_append_single c k vs (by
      cases hc : c.find? (fun p => decide (p.1 = k)) with
      | none => rfl
      | some p => rw [hc] at h; simp at h)

theorem find?_map_replace_other (c : List (K × List V)) (k k' : K) (vs : List V)
    (h : k' ≠ k) :
    ((c.map (fun p => if p.1 = k then (k, vs) else p)).find?
      (fun p => decide (p.1 = k'))) = c.find? (fun p => decide (p.1 = k')) := by
  induction c with
  | nil => rfl
  | cons p rest ih =>
      by_cases hp : p.1 = k
      · have hne : ¬ ((k, vs).1 = k') := fun hh => h hh.symm
        have hne2 : ¬ (p.1 = k') := by rw [hp]; exact fun hh => h hh.symm
        simp only [List.map_cons, if_pos hp, List.find?, decide_eq_false hne,
          decide_eq_false hne2]
        exact ih
      · simp only [List.map_cons, if_neg hp, List.find?]
        cases hq : decide (p.1 = k') with
        | true => rfl
        | false => exact ih

theorem find?_append_single_other (c : List (K × List V)) (k k' : K)
    (vs : List V) (h : k' ≠ k) :
    ((c ++ [(k, vs)]).find? (fun p => decide (p.1 = k'))) =
      c.find? (fun p => decide (p.1 = k')) := by
  induction c with
  | nil =>
      have hne : ¬ ((k, vs).1 = k') := fun hh => h hh.symm
      simp [List.find?, decide_eq_false hne]
  | cons p rest ih =>
      simp only [List.cons_append, List.find?]
      cases hq : decide (p.1 = k') with
      | true => rfl
      | false => exact ih

theorem find?_setEntry_other (c : List (K × List V)) (k k' : K) (vs : List V)
    (h : k' ≠ k) :
    (setEntry c k vs).find? (fun p => decide (p.1 = k')) =
      c.find? (fun p => decide (p.1 = k')) := by
  unfold setEntry
  split
  · exact find?_map_replace_other c k k' vs h
  · exact find?_append_single_other c k k' vs h

theorem find?_dropEntry_self (c : List (K × List V)) (k : K) :
    (dropEntry c k).find? (fun p => decide (p.1 = k)) = none := by
  induction c with
  | nil => rfl
  | cons p rest ih =>
      unfold dropEntry at ih ⊢
      rw [List.filter_cons]
      by_cases hp : p.1 = k
      · rw [decide_eq_false (by simp [hp] : ¬ (p.1 ≠ k))]
        exact ih
      · rw [decide_eq_true (by exact hp : p.1 ≠ k)]
        simp only [List.find?, decide_eq_false hp]
        exact ih

theorem find?_dropEntry_other (c : List (K × List V)) (k k' : K) (h : k' ≠ k) :
    (dropEntry c k).find? (fun p => decide (p.1 = k')) =
      c.find? (fun p => decide (p.1 = k')) := by
  induction c with
  | nil => rfl
  | cons p rest ih =>
      unfold dropEntry at ih ⊢
      rw [List.filter_cons]
      by_cases hp : p.1 = k
      · have hne : ¬ (p.1 = k') := by rw [hp]; exact fun hh => h hh.symm
        rw [decide_eq_false (by simp [hp] : ¬ (p.1 ≠ k))]
        rw [List.find?, decide_eq_false hne] at *
        exact ih
      · rw [decide_eq_true (by exact hp : p.1 ≠ k)]
        simp only [List.find?]
        cases hq : decide (p.1 = k') with
        | true => rfl
        | false => exact ih

theorem getList_def (m : OMM K V) (k : K) :
    m.getList k = match m.contents.find? (fun p => decide (p.1 = k)) with
      | some p => p.2
      | none => [] := rfl

theorem getList_put_self (m : OMM K V) (k : K) (v : V) :
    (m.put k v).getList k = m.getList k ++ [v] := by
  show getList _ _ = _
  rw [getList_def]
  show (match (setEntry m.contents k (m.getList k ++ [v])).find?
      (fun p => decide (p.1 = k)) with
    | some p => p.2 | none => []) = _
  rw [find?_setEntry_self]

theorem getList_put_other (m : OMM K V) (k k' : K) (v : V) (h : k' ≠ k) :
    (m.put k v).getList k' = m.getList k' := by
  show getList _ _ = _
  rw [getList_def, getList_def]
  show (match (setEntry m.contents k (m.getList k ++ [v])).find?
      (fun p => decide (p.1 = k')) with
    | some p => p.2 | none => []) = _
  rw [find?_setEntry_other _ _ _ _ h]

theorem put_keyOrder (m : OMM K V) (k : K) (v : V) :
    (m.put k v).keyOrder = if k ∈ m.keyOrder then m.keyOrder
      else m.keyOrder ++ [k] := rfl

theorem pop_keyOrder (m : OMM K V) (k : K) (v : V) :
    (m.pop k v).1.keyOrder = m.keyOrder := by
  unfold pop
  cases listIndex (m.getList k) v with
  | error e => rfl
  | ok i =>
      by_cases hemp : ((m.getList k).eraseIdx i).isEmpty = true
      · simp [hemp]
      · simp [hemp]

theorem listIndex_ok_of_mem (l : List V) (v : V) (h : v ∈ l) :
    ∃ i, listIndex l v = .ok i ∧ l.eraseIdx i = l.erase v := by
  induction l with
  | nil => cases h
  | cons a rest ih =>
      by_cases ha : a = v
      · refine ⟨0, ?_, ?_⟩
        · simp [listIndex, ha]
        · subst ha
          simp [List.erase_cons]
      · have hmem : v ∈ rest := by
          cases h with
          | head => exact absurd rfl ha
          | tail _ hm => exact hm
        obtain ⟨i, hidx, herase⟩ := ih hmem
        refine ⟨i + 1, ?_, ?_⟩
        · simp [listIndex, ha, hidx, Except.map]
        · have hne : ¬ (a == v) = true := by simpa using ha
          simp [List.erase_cons, List.eraseIdx_cons_succ, herase,
            Bool.of_not_eq_true hne]

theorem listIndex_error_of_not_mem (l : List V) (v : V) (h : v ∉ l) :
    listIndex l v = .error .valueError := by
  induction l with
  | nil => rfl
  | cons a rest ih =>
      have ha : ¬ (a = v) := fun hh => h (hh ▸ List.mem_cons_self a rest)
      have hmem : v ∉ rest := fun hm => h (List.mem_cons_of_mem a hm)
      simp [listIndex, ha, ih hmem, Except.map]

/-- After a successful `pop k v`, the values stored at `k` are the original
values with the first occurrence of `v` removed. -/
theorem pop_getList_self (m : OMM K V) (k : K) (v : V)
    (h : v ∈ m.getList k) :
    (m.pop k v).1.getList k = (m.getList k).erase v := by
  obtain ⟨i, hidx, herase⟩ := listIndex_ok_of_mem (m.getList k) v h
  unfold pop
  rw [hidx]
  by_cases hemp : ((m.getList k).eraseIdx i).isEmpty = true
  · simp only [hemp, if_true]
    show getList _ _ = _
    rw [getList_def]
    show (match (dropEntry m.contents k).find? (fun p => decide (p.1 = k)) with
      | some p => p.2 | none => []) = _
    rw [find?_dropEntry_self]
    rw [herase] at hemp
    exact (List.isEmpty_iff.mp hemp).symm
  · simp only [hemp, if_false]
    show getList _ _ = _
    rw [getList_def]
    show (match (setEntry m.contents k ((m.getList k).eraseIdx i)).find?
        (fun p => decide (p.1 = k)) with
      | some p => p.2 | none => []) = _
    rw [find?_setEntry_self, herase]

theorem pop_getList_other (m : OMM K V) (k k' : K) (v : V) (h : k' ≠ k) :
    (m.pop k v).1.getList k' = m.getList k' := by
  unfold pop
  cases listIndex (m.getList k) v with
  | error e =>
      show getList _ _ = _
      rw [getList_def]
      show (match (setEntry m.contents k (m.getList k)).find?
          (fun p => decide (p.1 = k')) with
        | some p => p.2 | none => []) = _
      rw [find?_setEntry_other _ _ _ _ h]
      rfl
  | ok i =>
      by_cases hemp : ((m.getList k).eraseIdx i).isEmpty = true
      · simp only [hemp, if_true]
        show getList _ _ = _
        rw [getList_def]
        show (match (dropEntry m.contents k).find?
            (fun p => decide (p.1 = k')) with
          | some p => p.2 | none => []) = _
        rw [find?_dropEntry_other _ _ _ h]
        rfl
      · simp only [hemp, if_false]
        show getList _ _ = _
        rw [getList_def]
        show (match (setEntry m.contents k ((m.getList k).eraseIdx i)).find?
            (fun p => decide (p.1 = k')) with
          | some p => p.2 | none => []) = _
        rw [find?_setEntry_other _ _ _ _ h]
        rfl

theorem pop_error_of_not_mem (m : OMM K V) (k : K) (v : V)
    (h : v ∉ m.getList k) :
    (m.pop k v).2 = .error .valueError := by
  unfold pop
  rw [listIndex_error_of_not_mem _ _ h]

theorem pop_getList_self_of_not_mem (m : OMM K V) (k : K) (v : V)
    (h : v ∉ m.getList k) :
    (m.pop k v).1.getList k = m.getList k := by
  unfold pop
  rw [listIndex_error_of_not_mem _ _ h]
  show getList _ _ = _
  rw [getList_def]
  show (match (setEntry m.contents k (m.getList k)).find?
      (fun p => decide (p.1 = k)) with
    | some p => p.2 | none => []) = _
  rw [find?_setEntry_self]

/-- Two maps with the same key order and pointwise-equal value lists have the
same items. -/
theorem itemsList_congr (m m' : OMM K V) (hk : m'.keyOrder = m.keyOrder)
    (hv : ∀ k, m'.getList k = m.getList k) :
    m'.itemsList = m.itemsList := by
  unfold itemsList
  rw [hk]
  congr 1
  exact List.map_congr_left (fun k _ => by rw [hv k])


theorem buildPuts_append (ps : List (K × V)) (kv : K × V) :
    buildPuts (ps ++ [kv]) = (buildPuts ps).put kv.1 kv.2 := by
  unfold buildPuts
  rw [List.foldl_append]
  rfl

theorem firstKeys_append (ps : List (K × V)) (kv : K × V) :
    firstKeys (ps ++ [kv]) =
      if kv.1 ∈ firstKeys ps then firstKeys ps else firstKeys ps ++ [kv.1] := by
  unfold firstKeys
  rw [List.foldl_append]
  rfl

theorem buildPuts_characterization (ps : List (K × V)) :
    (buildPuts ps).keyOrder = firstKeys ps ∧
      ∀ k, (buildPuts ps).getList k =
        (ps.filter (fun q => decide (q.1 = k))).map Prod.snd := by
  induction ps using List.reverseRecOn with
  | nil =>
      refine ⟨rfl, fun k => ?_⟩
      rfl
  | append_singleton ps kv ih =>
      rw [buildPuts_append, firstKeys_append]
      constructor
      · rw [put_keyOrder, ih.1]
      · intro k
        by_cases hk : k = kv.1
        · subst hk
          rw [getList_put_self, ih.2 kv.1, List.filter_append]
          simp [List.filter]
        · rw [getList_put_other _ _ _ _ hk, ih.2 k, List.filter_append]
          have : ¬ (kv.1 = k) := fun hh => hk hh.symm
          simp [List.filter, this]

theorem buildPuts_itemsList (ps : List (K × V)) :
    (buildPuts ps).itemsList = orderedItems ps := by
  unfold itemsList orderedItems
  rw [(buildPuts_characterization ps).1]
  congr 1
  refine List.map_congr_left (fun k _ => ?_)
  rw [(buildPuts_characterization ps).2 k, List.map_map]
  rfl


end OMM

/-- C5 counterexample: the claim says that once the last value at a key is
removed, the key no longer appears in iteration over the map's keys.  On the
code, `pop` drops the key from `contents` but never from `key_order`, so
after removing the only value stored at key 1 the key still appears in key
iteration. -/
theorem c5_pop_leaves_key_in_key_iteration :
    (c5ExampleMap.pop 1 10).2 = Except.ok 0 ∧
      (c5ExampleMap.pop 1 10).1.getList 1 = [] ∧
      1 ∈ (c5ExampleMap.pop 1 10).1.keysList := by
  refine ⟨rfl, rfl, by decide⟩

/-- C5 (amended): `pop(k, v)` removes the first matching occurrence of `v` at
`k`; once the last value at `k` is removed, `k` no longer contributes any
item to items-iteration (though it still appears in key iteration, because
`key_order` is never pruned); removing a value not present at `k` fails with
a `ValueError` and leaves the observable key and item sequences unchanged;
and key/item iteration follows first-insertion order. -/
theorem c5_ordered_multimap_remove_and_iteration
    (K V : Type) [DecidableEq K] [DecidableEq V] :
    (∀ (m : OMM K V) (k : K) (v : V), v ∈ m.getList k →
      (m.pop k v).1.getList k = (m.getList k).erase v) ∧
    (∀ (m : OMM K V) (k : K) (v : V), m.getList k = [v] → k ∈ m.keyOrder →
      (∀ p ∈ (m.pop k v).1.itemsList, p.1 ≠ k) ∧
        k ∈ (m.pop k v).1.keysList) ∧
    (∀ (m : OMM K V) (k : K) (v : V), v ∉ m.getList k →
      (m.pop k v).2 = Except.error PyErr.valueError ∧
        (m.pop k v).1.keysList = m.keysList ∧
        (m.pop k v).1.itemsList = m.itemsList) ∧
    (∀ ps : List (K × V),
      (OMM.buildPuts ps).keysList = OMM.firstKeys ps ∧
        (OMM.buildPuts ps).itemsList = OMM.orderedItems ps) := by
  refine ⟨?_, ?_, ?_, ?_⟩
  · intro m k v h
    exact OMM.pop_getList_self m k v h
  · intro m k v h hk
    constructor
    · intro p hp
      unfold OMM.itemsList at hp
      rw [List.mem_flatten] at hp
      obtain ⟨grp, hgrp, hpg⟩ := hp
      rw [List.mem_map] at hgrp
      obtain ⟨k0, hk0, rfl⟩ := hgrp
      rw [List.mem_map] at hpg
      obtain ⟨v0, hv0, rfl⟩ := hpg
      intro hcontra
      have hk0k : k0 = k := hcontra
      rw [hk0k] at hv0
      have hself : (m.pop k v).1.getList k = [] := by
        rw [OMM.pop_getList_self m k v (by rw [h]; exact List.mem_singleton.mpr rfl)]
        rw [h]
        simp [List.erase_cons]
      rw [hself] at hv0
      cases hv0
    · show k ∈ (m.pop k v).1.keyOrder
      rw [OMM.pop_keyOrder]
      exact hk
  · intro m k v h
    refine ⟨OMM.pop_error_of_not_mem m k v h, ?_, ?_⟩
    · show (m.pop k v).1.keyOrder = m.keyOrder
      exact OMM.pop_keyOrder m k v
    · refine OMM.itemsList_congr m (m.pop k v).1 (OMM.pop_keyOrder m k v) ?_
      intro k0
      by_cases hk0 : k0 = k
      · subst hk0
        exact OMM.pop_getList_self_of_not_mem m k0 v h
      · exact OMM.pop_getList_other m k k0 v hk0
  · intro ps
    exact ⟨(OMM.buildPuts_characterization ps).1, OMM.buildPuts_itemsList ps⟩
theorem breakLinkS_attached (t : Topology) (s : DState) (lid k : Nat) :
    (breakLinkS t s lid).attached k = if k = lid then false else s.attached k := by
  simp [breakLinkS, Function.update_apply]

theorem applyLinkS_attached (t : Topology) (s : DState) (lid k : Nat) :
    (applyLinkS t s lid).attached k = if k = lid then true else s.attached k := by
  simp [applyLinkS, Function.update_apply]

/-- Detaching and re-applying an attached link restores the state. -/
theorem apply_break_cancel (t : Topology) (s : DState) (lid : Nat)
    (h : s.attached lid = true) :
    applyLinkS t (breakLinkS t s lid) lid = s := by
  cases s with
  | mk att comp =>
      simp only [breakLinkS, applyLinkS, DState.mk.injEq]
      constructor
      · rw [Function.update_idem, ← h]
        exact Function.update_eq_self lid att
      · abel

/-- Applying and re-detaching a detached link restores the state. -/
theorem break_apply_cancel (t : Topology) (s : DState) (lid : Nat)
    (h : s.attached lid = false) :
    breakLinkS t (applyLinkS t s lid) lid = s := by
  cases s with
  | mk att comp =>
      simp only [breakLinkS, applyLinkS, DState.mk.injEq]
      constructor
      · rw [Function.update_idem, ← h]
        exact Function.update_eq_self lid att
      · abel

theorem foldBreakList_cons (t : Topology) (s : DState) (lid : Nat)
    (R : List Nat) :
    foldBreakList t s (lid :: R) = foldBreakList t (breakLinkS t s lid) R := rfl

theorem foldBreakList_attached_notmem (t : Topology) (s : DState)
    (R : List Nat) (lid : Nat) (h : lid ∉ R) :
    (foldBreakList t s R).attached lid = s.attached lid := by
  induction R generalizing s with
  | nil => rfl
  | cons l rest ih =>
      rw [foldBreakList_cons]
      have hne : lid ≠ l := fun hh => h (hh ▸ List.mem_cons_self l rest)
      rw [ih _ (fun hm => h (List.mem_cons_of_mem l hm))]
      rw [breakLinkS_attached, if_neg hne]

/-- Applying a link commutes with breaking a different link. -/
theorem apply_break_commute (t : Topology) (s : DState) (l1 l2 : Nat)
    (h : l1 ≠ l2) :
    applyLinkS t (breakLinkS t s l2) l1 = breakLinkS t (applyLinkS t s l1) l2 := by
  cases s with
  | mk att comp =>
      simp only [breakLinkS, applyLinkS, DState.mk.injEq]
      constructor
      · exact Function.update_comm (fun hh => h hh.symm) false true att
      · abel

theorem apply_foldBreak_commute (t : Topology) (s : DState) (R : List Nat)
    (lid : Nat) (h : lid ∉ R) :
    applyLinkS t (foldBreakList t s R) lid =
      foldBreakList t (applyLinkS t s lid) R := by
  induction R generalizing s with
  | nil => rfl
  | cons l rest ih =>
      rw [foldBreakList_cons, foldBreakList_cons]
      have hne : lid ≠ l := fun hh => h (hh ▸ List.mem_cons_self l rest)
      rw [ih _ (fun hm => h (List.mem_cons_of_mem l hm))]
      rw [apply_break_commute t s lid l hne]

theorem unmaskList_cons (t : Topology) (s : DState) (lid : Nat)
    (R : List Nat) :
    unmaskList t s (lid :: R) = unmaskList t (tryApplyLinkS t s lid) R := rfl

/-- Re-applying, in order, a nodup list of previously attached links that
was just broken in order restores the state. -/
theorem unmask_foldBreak_cancel (t : Topology) : ∀ (R : List Nat) (s : DState),
    R.Nodup → (∀ l ∈ R, s.attached l = true) →
    unmaskList t (foldBreakList t s R) R = s := by
  intro R
  induction R with
  | nil => intro s _ _; rfl
  | cons lid rest ih =>
      intro s hnd hatt
      rw [foldBreakList_cons, unmaskList_cons]
      have hmem : lid ∉ rest := (List.nodup_cons.mp hnd).1
      have hdet : (foldBreakList t (breakLinkS t s lid) rest).attached lid = false := by
        rw [foldBreakList_attached_notmem t _ rest lid hmem]
        rw [breakLinkS_attached]
        simp
      rw [show tryApplyLinkS t (foldBreakList t (breakLinkS t s lid) rest) lid =
          applyLinkS t (foldBreakList t (breakLinkS t s lid) rest) lid from by
        unfold tryApplyLinkS
        rw [hdet]
        simp]
      rw [apply_foldBreak_commute t _ rest lid hmem]
      rw [apply_break_cancel t s lid (hatt lid (List.mem_cons_self lid rest))]
      exact ih s (List.nodup_cons.mp hnd).2
        (fun l hl => hatt l (List.mem_cons_of_mem lid hl))

/-- `releaseGo` breaks exactly the attached links of its list, in order: the
broken list is nodup, all its members were attached, and the final state is
the fold of `break_link` over it. -/
theorem releaseGo_spec (t : Topology) : ∀ (L : List Nat) (s : DState),
    (releaseGo t L s).2 = foldBreakList t s (releaseGo t L s).1 ∧
      (releaseGo t L s).1.Nodup ∧
      ∀ l ∈ (releaseGo t L s).1, s.attached l = true := by
  intro L
  induction L with
  | nil => exact fun s => ⟨rfl, List.nodup_nil, fun l hl => absurd hl (List.not_mem_nil l)⟩
  | cons lid rest ih =>
      intro s
      by_cases hA : s.attached lid = true
      · have hgo : releaseGo t (lid :: rest) s =
            ((lid :: (releaseGo t rest (breakLinkS t s lid)).1),
              (releaseGo t rest (breakLinkS t s lid)).2) := by
          simp only [releaseGo, hA, if_true]
        obtain ⟨ih1, ih2, ih3⟩ := ih (breakLinkS t s lid)
        rw [hgo]
        refine ⟨?_, ?_, ?_⟩
        · rw [foldBreakList_cons]
          exact ih1
        · rw [List.nodup_cons]
          refine ⟨fun hmem => ?_, ih2⟩
          have := ih3 lid hmem
          rw [breakLinkS_attached] at this
          simp at this
        · intro l hl
          cases hl with
          | head => exact hA
          | tail _ hl2 =>
              have := ih3 l hl2
              rw [breakLinkS_attached] at this
              by_cases hle : l = lid
              · subst hle
                simp at this
              · rw [if_neg hle] at this
                exact this
      · have hgo : releaseGo t (lid :: rest) s = releaseGo t rest s := by
          rw [Bool.not_eq_true] at hA
          simp only [releaseGo, hA]
          simp
        rw [hgo]
        exact ih s

/-- Masking a residue's links and unmasking them (the two phases of
`toggle`) restores the state. -/
theorem release_unmask_cancel (t : Topology) (s : DState) (nid : Nat) :
    unmaskList t (releaseNode t s nid).2 (releaseNode t s nid).1 = s := by
  unfold releaseNode
  cases findNode t nid with
  | none => rfl
  | some n =>
      obtain ⟨h1, h2, h3⟩ := releaseGo_spec t (n.linksOMM.itemsList.map Prod.snd) s
      rw [h1]
      exact unmask_foldBreak_cancel t _ s h2 h3

theorem crossfold_state (t : Topology) (childId : Nat) (n : GNodeStatic) :
    ∀ (ps : List (Nat × Nat)) (fr : List RawFrag) (st : DState),
    (ps.foldl
      (fun (acc : List RawFrag × DState) pair =>
        (acc.1 ++ crossringFragValues n pair,
          unmaskList t (releaseNode t acc.2 childId).2
            (releaseNode t acc.2 childId).1))
      (fr, st)).2 = st := by
  intro ps
  induction ps with
  | nil => intro fr st; rfl
  | cons p rest ih =>
      intro fr st
      rw [List.foldl_cons]
      have hrw : ((fr ++ crossringFragValues n p : List RawFrag),
          unmaskList t (releaseNode t st childId).2
            (releaseNode t st childId).1) =
          ((fr ++ crossringFragValues n p : List RawFrag), st) := by
        rw [release_unmask_cancel]
      rw [hrw]
      exact ih _ st

/-- The crossring block leaves the state exactly as it found it (the link
was broken on entry). -/
theorem crossringStep_restores (t : Topology) (s : DState)
    (childId lid : Nat) (n : GNodeStatic) (h : s.attached lid = false) :
    (crossringStep t s childId lid n).2 = s := by
  unfold crossringStep
  have hfold := crossfold_state t childId n (cleavagePairs n) [] (applyLinkS t s lid)
  have hatt : (applyLinkS t s lid).attached lid = true := by
    rw [applyLinkS_attached]
    simp
  simp only [hfold, hatt, if_true]
  exact break_apply_cancel t s lid h

/-- One loop-body run on an attached link restores the state, provided the
recursive calls do. -/
theorem processOne_restores (t : Topology) (mt : MassTable) (m : Nat)
    (kind : KindSel) (recFn : DState → Nat → List RawFrag × DState)
    (hrec : ∀ s2 r2, (recFn s2 r2).2 = s2) (s : DState) (lid : Nat)
    (h : s.attached lid = true) :
    (processOne t mt m kind recFn s lid).2 = s := by
  unfold processOne
  cases hfl : findLink t lid with
  | none => rfl
  | some l =>
      have hdet : (breakLinkS t s lid).attached lid = false := by
        rw [breakLinkS_attached]
        simp
      have hcore : ∀ core : List RawFrag × DState, core.2 = breakLinkS t s lid →
          (if core.2.attached lid then core
            else (core.1, applyLinkS t core.2 lid)).2 = s := by
        intro core hc
        rw [hc, hdet]
        simp only [Bool.false_eq_true, if_false]
        exact apply_break_cancel t s lid h
      by_cases hm : m > 0
      · simp only [hm, if_true]
        apply hcore
        simp only [hrec]
        cases hfn : findNode t l.child with
        | none => rfl
        | some n =>
            by_cases hx : ((kind.a || kind.x) &&
                !(nodeRingType n = .x) && !(nodeRingType n = .openChain)) = true
            · simp only [hx, if_true]
              exact crossringStep_restores t _ l.child lid n hdet
            · rw [Bool.not_eq_true] at hx
              simp only [hx]
              rfl
      · simp only [hm, if_false]
        apply hcore
        cases hfn : findNode t l.child with
        | none => rfl
        | some n =>
            by_cases hx : ((kind.a || kind.x) &&
                !(nodeRingType n = .x) && !(nodeRingType n = .openChain)) = true
            · simp only [hx, if_true]
              exact crossringStep_restores t _ l.child lid n hdet
            · rw [Bool.not_eq_true] at hx
              simp only [hx]
              rfl

/-- The whole loop restores the state, provided the recursive calls do. -/
theorem processLids_restores (t : Topology) (mt : MassTable) (m : Nat)
    (kind : KindSel) (visited : List Nat)
    (recFn : DState → Nat → List RawFrag × DState)
    (hrec : ∀ s2 r2, (recFn s2 r2).2 = s2) (lids : List Nat) (s : DState) :
    (processLids t mt m kind visited recFn lids s).2 = s := by
  induction lids generalizing s with
  | nil => rfl
  | cons lid rest ih =>
      unfold processLids
      by_cases hv : lid ∈ visited
      · simp only [hv, if_true]
        exact ih s
      · simp only [hv, if_false]
        by_cases hA : s.attached lid = false
        · simp only [hA, if_true]
          exact ih s
        · simp only [hA, if_false]
          have hT : s.attached lid = true := by
            rw [Bool.not_eq_false] at hA
            exact hA
          rw [ih (processOne t mt m kind recFn s lid).2]
          exact processOne_restores t mt m kind recFn hrec s lid hT

/-- `break_links` always hands the graph back exactly as it received it. -/
theorem breakLinks_restores (t : Topology) (mt : MassTable) (nLinks : Nat)
    (s : DState) (root : Nat) (kind : KindSel) (visited : List Nat) :
    (breakLinks t mt nLinks s root kind visited).2 = s := by
  induction nLinks using Nat.strong_induction_on generalizing s root with
  | _ nLinks ih =>
      match nLinks with
      | 0 =>
          unfold breakLinks
          exact processLids_restores t mt 0 kind visited _
            (fun s2 r2 => rfl) _ s
      | 1 =>
          unfold breakLinks
          exact processLids_restores t mt 0 kind visited _
            (fun s2 r2 => rfl) _ s
      | n + 2 =>
          unfold breakLinks
          exact processLids_restores t mt (n + 1) kind visited _
            (fun s2 r2 => ih (n + 1) (by omega) s2 r2) _ s

theorem fragmentsRange_restores (t : Topology) (mt : MassTable) (root : Nat)
    (kind : KindSel) (lo n : Nat) (s : DState) :
    (fragmentsRange t mt root kind lo n s).2 = s := by
  induction n generalizing lo s with
  | zero => rfl
  | succ k ih =>
      unfold fragmentsRange
      simp only [breakLinks_restores]
      exact ih (lo + 1) s

/-- C3: after exhausting the fragmentation engine, in either mode, the
glycan state is exactly the pre-call state: the reachable-node traversal
has the same length (node count), every link has its original attached
flag (link count, restoration on every exit path), and the total
composition is unchanged. -/
theorem c3_fragments_restore_graph (t : Topology) (mt : MassTable)
    (s : DState) (root : Nat) (kind : KindSel) (mc : Nat) (inplace : Bool) :
    (fragmentsModel t mt s root kind mc inplace).2 = s ∧
    (dfsNodes t (fragmentsModel t mt s root kind mc inplace).2 root).length
      = (dfsNodes t s root).length ∧
    (∀ lid, (fragmentsModel t mt s root kind mc inplace).2.attached lid
      = s.attached lid) ∧
    glycanTotalComp t (fragmentsModel t mt s root kind mc inplace).2 root
      = glycanTotalComp t s root := by
  have hmain : (fragmentsModel t mt s root kind mc inplace).2 = s := by
    unfold fragmentsModel
    cases inplace with
    | true =>
        simp only [if_true]
        exact fragmentsRange_restores t mt root kind 1 mc s
    | false => rfl
  exact ⟨hmain, by rw [hmain], fun lid => by rw [hmain], by rw [hmain]⟩

theorem subMassListF_nil (mt : MassTable) : subMassListF mt [] = 0 := by
  simp [subMassListF]

/-- The fragment run on the two-node glycan produces exactly a Y fragment
(the parent subtree, zero shift) followed by a B fragment (the child
subtree, shifted by H2O), each over the single link 7. -/
theorem c2frags_eq (mt : MassTable) (pc cc pl cl : Composition) :
    c2frags mt pc cc pl cl =
      [⟨"Y", [7],
        dfsNodes (twoNodeTop pl cl)
          (breakLinkS (twoNodeTop pl cl) (twoNodeState pc cc) 7) 1,
        glycanMass (twoNodeTop pl cl) mt
          (breakLinkS (twoNodeTop pl cl) (twoNodeState pc cc) 7) 1
          - calcMass mt fragmentShiftY⟩,
       ⟨"B", [7],
        dfsNodes (twoNodeTop pl cl)
          (breakLinkS (twoNodeTop pl cl) (twoNodeState pc cc) 7) 2,
        glycanMass (twoNodeTop pl cl) mt
          (breakLinkS (twoNodeTop pl cl) (twoNodeState pc cc) 7) 2
          - calcMass mt fragmentShiftB⟩] := rfl

/-- After breaking the link, the Y piece weighs the parent's composition
plus the refunded parent loss. -/
theorem c2_massY_eq (mt : MassTable) (pc cc pl cl : Composition) :
    glycanMass (twoNodeTop pl cl) mt
      (breakLinkS (twoNodeTop pl cl) (twoNodeState pc cc) 7) 1
      = calcMass mt (pc + pl) := by
  have hdfs : dfsNodes (twoNodeTop pl cl)
      (breakLinkS (twoNodeTop pl cl) (twoNodeState pc cc) 7) 1 = [1] := rfl
  have hn : nodeMass (twoNodeTop pl cl) mt
      (breakLinkS (twoNodeTop pl cl) (twoNodeState pc cc) 7) 1
      = calcMass mt (pc + (pl + 0)) + (subMassListF mt [] + 0) := rfl
  unfold glycanMass
  rw [hdfs]
  simp only [List.map_cons, List.map_nil, List.sum_cons, List.sum_nil, hn,
    subMassListF_nil, add_zero]

/-- After breaking the link, the B piece weighs the child's composition
plus the refunded child loss. -/
theorem c2_massB_eq (mt : MassTable) (pc cc pl cl : Composition) :
    glycanMass (twoNodeTop pl cl) mt
      (breakLinkS (twoNodeTop pl cl) (twoNodeState pc cc) 7) 2
      = calcMass mt (cc + cl) := by
  have hdfs : dfsNodes (twoNodeTop pl cl)
      (breakLinkS (twoNodeTop pl cl) (twoNodeState pc cc) 7) 2 = [2] := rfl
  have hn : nodeMass (twoNodeTop pl cl) mt
      (breakLinkS (twoNodeTop pl cl) (twoNodeState pc cc) 7) 2
      = calcMass mt (cc + (0 + cl)) + (subMassListF mt [] + 0) := rfl
  unfold glycanMass
  rw [hdfs]
  simp only [List.map_cons, List.map_nil, List.sum_cons, List.sum_nil, hn,
    subMassListF_nil, add_zero, zero_add]

/-- The intact two-node glycan weighs the sum of the two stored node
compositions. -/
theorem c2_intact_eq (mt : MassTable) (pc cc pl cl : Composition) :
    glycanMass (twoNodeTop pl cl) mt (twoNodeState pc cc) 1
      = calcMass mt pc + calcMass mt cc := by
  have hdfs : dfsNodes (twoNodeTop pl cl) (twoNodeState pc cc) 1
      = [1, 2] := rfl
  have h1 : nodeMass (twoNodeTop pl cl) mt (twoNodeState pc cc) 1
      = calcMass mt pc + (subMassListF mt [] + 0) := rfl
  have h2 : nodeMass (twoNodeTop pl cl) mt (twoNodeState pc cc) 2
      = calcMass mt cc + (subMassListF mt [] + 0) := rfl
  unfold glycanMass
  rw [hdfs]
  simp only [List.map_cons, List.map_nil, List.sum_cons, List.sum_nil, h1, h2,
    subMassListF_nil, add_zero]

/-- The exact mass balance of the B/Y pair on the two-node glycan: the two
fragment masses sum to the intact mass, plus the link's loss total, minus
one water (the B shift). -/
theorem c2_sum_formula (mt : MassTable) (pc cc pl cl : Composition) :
    ((c2frags mt pc cc pl cl).map (fun f => f.mass)).sum =
      glycanMass (twoNodeTop pl cl) mt (twoNodeState pc cc) 1
        + calcMass mt (pl + cl) - calcMass mt Composition.water := by
  rw [c2frags_eq]
  simp only [List.map_cons, List.map_nil, List.sum_cons, List.sum_nil]
  rw [c2_massY_eq, c2_massB_eq, c2_intact_eq]
  have hb : calcMass mt fragmentShiftB = calcMass mt Composition.water := rfl
  have hy : calcMass mt fragmentShiftY = 0 := by
    simp [fragmentShiftY, calcMass, Composition.zero_def]
  rw [hb, hy]
  simp only [calcMass_add]
  ring

/-- C2: `fragments(kind=("B","Y"), max_cleavages=1)` on the two-node glycan
yields exactly 2 fragments, one "Y" and one "B"; and whenever the link's
two attachment losses sum to water (the invariant of a glycosidic bond),
the implementation's shift table gives `mass(B) + mass(Y) = mass(intact
glycan)` — with no extra water term on the right-hand side. -/
theorem c2_two_node_by_fragments (mt : MassTable) (pc cc pl cl : Composition)
    (hw : pl + cl = Composition.water) :
    (c2frags mt pc cc pl cl).map (fun f => f.kind) = ["Y", "B"] ∧
    ((c2frags mt pc cc pl cl).map (fun f => f.mass)).sum =
      glycanMass (twoNodeTop pl cl) mt (twoNodeState pc cc) 1 := by
  refine ⟨rfl, ?_⟩
  rw [c2_sum_formula, hw]
  ring

theorem c2_two_node_by_fragments_witness :
    Composition.hydroxyl + Composition.hydrogen = Composition.water ∧
    ((c2frags monoisotopic ⟨6, 11, 5, 0⟩ ⟨6, 11, 6, 0⟩ Composition.hydroxyl
        Composition.hydrogen).map (fun f => f.kind) = ["Y", "B"] ∧
      ((c2frags monoisotopic ⟨6, 11, 5, 0⟩ ⟨6, 11, 6, 0⟩ Composition.hydroxyl
          Composition.hydrogen).map (fun f => f.mass)).sum =
        glycanMass (twoNodeTop Composition.hydroxyl Composition.hydrogen)
          monoisotopic (twoNodeState ⟨6, 11, 5, 0⟩ ⟨6, 11, 6, 0⟩) 1) :=
  ⟨by decide,
    c2_two_node_by_fragments monoisotopic ⟨6, 11, 5, 0⟩ ⟨6, 11, 6, 0⟩
      Composition.hydroxyl Composition.hydrogen (by decide)⟩

/-- The claimed law `mass(B) + mass(Y) = mass(intact) + mass(H2O)` fails on
the NIST monoisotopic table with a standard glycosidic link (losses
OH + H = H2O): the two fragment masses sum to the intact mass itself, and
water's monoisotopic mass is strictly positive. -/
theorem c2_mass_law_counterexample :
    ((c2frags monoisotopic ⟨6, 11, 5, 0⟩ ⟨6, 11, 6, 0⟩ Composition.hydroxyl
        Composition.hydrogen).map (fun f => f.kind) = ["Y", "B"]) ∧
    ((c2frags monoisotopic ⟨6, 11, 5, 0⟩ ⟨6, 11, 6, 0⟩ Composition.hydroxyl
        Composition.hydrogen).map (fun f => f.mass)).sum ≠
      glycanMass (twoNodeTop Composition.hydroxyl Composition.hydrogen)
        monoisotopic (twoNodeState ⟨6, 11, 5, 0⟩ ⟨6, 11, 6, 0⟩) 1
        + calcMass monoisotopic Composition.water := by
  refine ⟨rfl, ?_⟩
  rw [c2_sum_formula]
  have hwsum : Composition.hydroxyl + Composition.hydrogen =
      Composition.water := by decide
  rw [hwsum]
  have hpos := calcMass_water_monoisotopic_pos
  intro h
  linarith

/-- The branch-point loop never touches the label of a link outside its
list. -/
theorem branchAssignGo_labels_notmem (count : Nat) :
    ∀ (lids : List Nat) (st : LState) (k : Nat), k ∉ lids →
      (branchAssignGo count lids st).labels k = st.labels k := by
  intro lids
  induction lids with
  | nil => intro st k _; rfl
  | cons lid rest ih =>
      intro st k hk
      simp only [branchAssignGo]
      rw [ih _ k (fun hm => hk (List.mem_cons_of_mem _ hm))]
      exact if_neg (fun he : k = lid =>
        hk (by rw [he]; exact List.mem_cons_self lid rest))

/-- The branch-point loop labels the `i`-th link of its list with the
`(i+1)`-st fresh symbol after the incoming `last_branch_label`, at depth
`count + 1`. -/
theorem branchAssignGo_labels (count : Nat) :
    ∀ (lids : List Nat) (st : LState), lids.Nodup →
    ∀ i (hi : i < lids.length),
      (branchAssignGo count lids st).labels (lids.get ⟨i, hi⟩) =
        some ⟨symAfter st.lastBranchLabel (i + 1), count + 1⟩ := by
  intro lids
  induction lids with
  | nil => intro st _ i hi; exact absurd hi (by simp)
  | cons lid rest ih =>
      intro st hnd i hi
      match i with
      | 0 =>
          simp only [branchAssignGo, List.get]
          rw [branchAssignGo_labels_notmem count rest _ lid
            (List.nodup_cons.mp hnd).1]
          simp
          rfl
      | i' + 1 =>
          simp only [branchAssignGo, List.get]
          exact ih _ (List.nodup_cons.mp hnd).2 i' (Nat.lt_of_succ_lt_succ hi)

/-- C6: the per-node behavior of `label_branches`.  A node with exactly one
non-parent link continues the parent branch: the link is labeled with the
parent symbol and that branch's incremented depth counter, and
`last_branch_label` is untouched.  At a node with two or more non-parent
links, EVERY such link — the first included, contrary to the spec's
"the first such link continues the current branch" — receives a freshly
allocated next letter (successive `chrinc`s of `last_branch_label`), each
with depth counter `parent depth + 1`. -/
theorem c6_branch_labels (t : Topology) (st : LState) (nid : Nat) :
    (∀ l, outLinks t nid = [l] →
      (labelNodeStep t st nid).labels l =
        some ⟨getParentLink t st nid,
          blGet st.branchLengths (getParentLink t st nid) + 1⟩ ∧
      (labelNodeStep t st nid).lastBranchLabel = st.lastBranchLabel) ∧
    (∀ lids, outLinks t nid = lids → 2 ≤ lids.length → lids.Nodup →
      ∀ i (hi : i < lids.length),
        (labelNodeStep t st nid).labels (lids.get ⟨i, hi⟩) =
          some ⟨symAfter st.lastBranchLabel (i + 1),
            blGet st.branchLengths (getParentLink t st nid) + 1⟩) := by
  constructor
  · intro l h
    constructor
    · unfold labelNodeStep
      rw [h]
      simp
    · unfold labelNodeStep
      rw [h]
  · intro lids h hlen hnd i hi
    cases lids with
    | nil => exact absurd hlen (by simp)
    | cons a tail =>
        cases tail with
        | nil => exact absurd hlen (by simp)
        | cons b rest =>
            have hstep : labelNodeStep t st nid =
                branchAssignGo
                  (blGet st.branchLengths (getParentLink t st nid))
                  (a :: b :: rest) st := by
              unfold labelNodeStep
              rw [h]
            rw [hstep]
            exact branchAssignGo_labels _ _ st hnd i hi

theorem c6_branch_labels_witness :
    (labelNodeStep c6Top c6InitState 1).labels 10 = some ⟨'a', 1⟩ ∧
    (labelNodeStep c6Top c6InitState 1).labels 11 = some ⟨'b', 1⟩ := by
  have h := (c6_branch_labels c6Top c6InitState 1).2 [10, 11] rfl
    (by decide) (by decide)
  have h0 := h 0 (by decide)
  have h1 := h 1 (by decide)
  exact ⟨h0.trans (by decide), h1.trans (by decide)⟩

/-- On the two-child root, the whole `label_branches` run hands the FIRST
branch the fresh letter `a` (and the second `b`); the first branch does not
continue the main chain's `-` symbol as the spec claims. -/
theorem c6_first_branch_gets_fresh_letter :
    (labelBranches c6Top 1).labels 10 = some ⟨'a', 1⟩ ∧
    (labelBranches c6Top 1).labels 11 = some ⟨'b', 1⟩ ∧
    (labelBranches c6Top 1).labels 10 ≠ some ⟨'-', 1⟩ := by
  refine ⟨rfl, rfl, ?_⟩
  intro h
  rw [show (labelBranches c6Top 1).labels 10 = some ⟨'a', 1⟩ from rfl] at h
  simp at h


/-- C1 (code bug evaluated at the failing input): serializing the glycan
with a `d` modification at unknown position `-1` emits `|-1:d`, which the
parser's residue grammar (`[0-9x]+` positions) cannot read back; the
re-parsed glycan silently loses the modification (composition `C6H12O6`
instead of `C6H12O5`) and is not topologically equal to the original, so the
round-trip law fails. -/
theorem c1_roundtrip_drops_unknown_position_modification :
    c1FailingNode.modifications.itemsList = [(Pos.i (-1), MVal.mod .d)] ∧
      c1FailingNode.composition = ⟨6, 12, 5, 0⟩ ∧
      glycanToGlycoctSingle c1FailingNode =
        "RES\n1b:b-dglc-HEX-1:5|-1:d\nLIN\n" ∧
      (parseGlycoctText (glycanToGlycoctSingle c1FailingNode)).2 = none ∧
      (parseGlycoctText (glycanToGlycoctSingle c1FailingNode)).1.length = 1 ∧
      (match c1ReparsedG.rootEnt with
        | .res m => m.modifications.itemsList = [] ∧ m.composition = ⟨6, 12, 6, 0⟩
        | .sub _ => False) ∧
      topoEq 16 c1OriginalG 0 c1ReparsedG 0 = false ∧
      topoEq 16 c1OriginalG 0 c1OriginalG 0 = true := by
  refine ⟨rfl, rfl, rfl, rfl, rfl, ⟨rfl, rfl⟩, rfl, rfl⟩

/-- C10: parsing an input stream with no residue lines at all (empty text)
still yields exactly one `Glycan`, whose root is a freshly
default-constructed `Monosaccharide`. -/
theorem c10_empty_input_yields_default_glycan :
    parseGlycoctText "" = ([⟨[], [], Entity.res defaultMono⟩], none) := by
  rfl

/-- C9 (amended): whenever the parser, with its internal root set (at least
one residue parsed since the last reset) and not inside a repeat, encounters
a new `RES` token, it yields the completed `Glycan` rooted at that
first-parsed residue and resets the graph and root before later lines. -/
theorem c9_res_token_yields_and_resets (ps : PState) (r : Nat)
    (h : ps.root = some r) (hr : ps.inRepeat = false) :
    stepToken ps "RES" =
      ({ ps with state := .res, graph := [], root := none },
        some ⟨ps.heap, ps.plinks, heapGet ps.heap r⟩, none) := by
  simp [stepToken, mkGlycanP, h, hr]

/-- Witness for C9: the reset-and-yield step applied to the state holding
one parsed residue (heap id 0). -/
theorem c9_res_token_witness :
    stepToken c9ResState "RES" =
      ({ c9ResState with state := .res, graph := [], root := none },
        some ⟨c9ResState.heap, c9ResState.plinks,
          heapGet c9ResState.heap 0⟩, none) :=
  c9_res_token_yields_and_resets c9ResState 0 rfl rfl

/-- C9 counterexample: with a non-empty in-progress graph that contains only
a substituent (so no residue was parsed and root is unset), a new `RES`
token yields nothing — the claim's trigger "non-empty in-progress graph" is
wrong; the code keys the yield on the root being set. -/
theorem c9_substituent_only_graph_no_yield :
    c9SubOnlyState.graph ≠ [] ∧ c9SubOnlyState.root = none ∧
      (stepToken c9SubOnlyState "RES").2.1 = none := by
  refine ⟨by decide, rfl, rfl⟩

/-- `goTokens` splits over list append: a clean prefix run continues, an
error stops the run. -/
theorem goTokens_append (ts1 : List String) (ps : PState) (ts2 : List String)
    (acc : List GlycanP) :
    goTokens ps (ts1 ++ ts2) acc =
      (match goTokens ps ts1 acc with
        | (acc1, none, ps1) => goTokens ps1 ts2 acc1
        | (acc1, some e, ps1) => (acc1, some e, ps1)) := by
  induction ts1 generalizing ps acc with
  | nil => simp [goTokens]
  | cons t rest ih =>
      rcases hstep : stepToken ps t with ⟨ps2, yld, err⟩
      cases err with
      | none =>
          simp only [List.cons_append, goTokens, hstep]
          exact ih ps2 (acc ++ yld.toList)
      | some e =>
          simp only [List.cons_append, goTokens, hstep]

/-- C4 (amended): whenever the parser reaches a bare `REP`, `ALT` or `UND`
section keyword token, it raises the dedicated unsupported-section error —
a constructor distinct from the generic grammar error — regardless of the
machine state; consequently a run whose prefix parsed cleanly aborts with
that error and yields only the glycans completed before the keyword, never
a truncated glycan for the structure in progress. -/
theorem c4_unsupported_section_error :
    (∀ ps : PState, stepToken ps "REP" =
      (ps, none, some (GErr.sectionUnsupported "REP"))) ∧
    (∀ ps : PState, stepToken ps "ALT" =
      (ps, none, some (GErr.sectionUnsupported "ALT"))) ∧
    (∀ ps : PState, stepToken ps "UND" =
      (ps, none, some (GErr.sectionUnsupported "UND"))) ∧
    (∀ (ts1 ts2 : List String) (acc1 : List GlycanP) (ps1 : PState)
      (kw : String), (kw = "REP" ∨ kw = "ALT" ∨ kw = "UND") →
      goTokens initPState ts1 [] = (acc1, none, ps1) →
      runTokens (ts1 ++ kw :: ts2) = (acc1, some (GErr.sectionUnsupported kw))) ∧
    (∀ s l, GErr.sectionUnsupported s ≠ GErr.glycoctError l) := by
  have hrep : ∀ ps : PState, stepToken ps "REP" =
      (ps, none, some (GErr.sectionUnsupported "REP")) := fun ps => rfl
  have halt : ∀ ps : PState, stepToken ps "ALT" =
      (ps, none, some (GErr.sectionUnsupported "ALT")) := fun ps => rfl
  have hund : ∀ ps : PState, stepToken ps "UND" =
      (ps, none, some (GErr.sectionUnsupported "UND")) := fun ps => rfl
  refine ⟨hrep, halt, hund, ?_, ?_⟩
  · intro ts1 ts2 acc1 ps1 kw hkw hrun
    unfold runTokens
    rw [goTokens_append, hrun]
    show (match goTokens ps1 (kw :: ts2) acc1 with
      | (acc, none, ps) => (acc ++ [mkGlycanP { ps with inRepeat := false }], none)
      | (acc, some e, _) => (acc, some e)) = _
    unfold goTokens
    rcases hkw with hkw | hkw | hkw <;> subst hkw
    · rw [hrep ps1]
      simp
    · rw [halt ps1]
      simp
    · rw [hund ps1]
      simp
  · intro s l hne
    cases hne

/-- Witness for C4: a complete structure followed by a `REP` keyword aborts
with the unsupported-section error and yields nothing for it. -/
theorem c4_unsupported_section_witness :
    runTokens ["RES", "REP"] = ([], some (GErr.sectionUnsupported "REP")) := by
  have h := c4_unsupported_section_error
  exact h.2.2.2.1 ["RES"] [] [] { initPState with state := .res } "REP"
    (Or.inl rfl) rfl

/-- C4 counterexample: an input containing the `REP` keyword can still fail
with the generic grammar error, when a malformed line precedes the keyword —
the claim's "for every input containing a REP section keyword, parsing
raises the unsupported-section error" is too strong. -/
theorem c4_grammar_error_before_rep :
    runTokens ["FOO", "REP"] = ([], some (GErr.glycoctError "FOO")) ∧
      GErr.glycoctError "FOO" ≠ GErr.sectionUnsupported "REP" := by
  exact ⟨rfl, by decide⟩

/-- C7 counterexample: both `keto` entries at an occupied position are added
through the public `add_modification` API, yet `is_occupied` subtracts only
one of them, returning 1 where the claim's count (all keto entries excluded)
is 0. -/
theorem c7_double_keto_counterexample :
    c7KetoNode.modifications.getList (.i 2) =
        [MVal.mod .keto, MVal.mod .keto] ∧
      c7KetoNode.isOccupied (.i 2) = .ok 1 ∧
      claimOccupancy c7KetoNode (.i 2) = 0 := by
  refine ⟨rfl, rfl, rfl⟩

/-- C7 (amended): for an in-range backbone position `1 ≤ p ≤ superclass
size`, `is_occupied(p)` counts links + modifications + substituent links at
`p` and subtracts exactly one occurrence when a `keto` modification is
present (not one per keto entry); `is_occupied(-1)` always returns 0
regardless of what is attached there; and for the string position `'x'` the
Python 2 bounds comparison `'x' > superclass.value` is true, so
`is_occupied('x')` raises `IndexError` instead of returning 0. -/
theorem c7_is_occupied_characterization :
    (∀ (m : Mono) (nn s : Int), m.superclass.sizeVal = some s →
      1 ≤ nn → nn ≤ s →
      m.isOccupied (.i nn) = .ok ((m.links.getList (.i nn)).length +
        (m.modifications.getList (.i nn)).length +
        (m.substituentLinks.getList (.i nn)).length -
        (if MVal.mod .keto ∈ m.modifications.getList (.i nn) then 1 else 0))) ∧
    (∀ (m : Mono) (s : Int), m.superclass.sizeVal = some s → -1 ≤ s →
      m.isOccupied (.i (-1)) = .ok 0) ∧
    (∀ m : Mono, m.isOccupied .x = .error .indexError) := by
  refine ⟨?_, ?_, ?_⟩
  · intro m nn s hs h1 h2
    have hns : ¬ (s < nn) := by omega
    have hn1 : ¬ (nn < 1) := by omega
    have hneg : ¬ (Pos.i nn = Pos.i (-1)) := by
      intro hh
      injection hh with h3
      omega
    simp [Mono.isOccupied, hs, Pos.gtVal, Pos.ltOne, hns, hn1, hneg]
  · intro m s hs hle
    have hns : ¬ (s < -1) := by omega
    simp [Mono.isOccupied, hs, Pos.gtVal, Pos.ltOne, hns]
  · intro m
    simp [Mono.isOccupied, Pos.gtVal]

/-- Witness for C7: the amended characterization applied to the double-keto
node and to the bare hexose node. -/
theorem c7_is_occupied_witness :
    c7KetoNode.isOccupied (.i 2) =
        .ok ((c7KetoNode.links.getList (.i 2)).length +
          (c7KetoNode.modifications.getList (.i 2)).length +
          (c7KetoNode.substituentLinks.getList (.i 2)).length -
          (if MVal.mod .keto ∈ c7KetoNode.modifications.getList (.i 2)
            then 1 else 0)) ∧
      hexBase.isOccupied (.i (-1)) = .ok 0 ∧
      hexBase.isOccupied .x = .error .indexError := by
  have h := c7_is_occupied_characterization
  exact ⟨h.1 c7KetoNode 2 6 rfl (by omega) (by omega),
    h.2.1 hexBase 6 rfl (by omega), h.2.2 hexBase⟩

/-- C8: `add_modification` fails with the occupancy `ValueError` exactly when
`is_occupied(position) > max_occupancy`; an `IndexError` from the occupancy
probe propagates unchanged; every failure leaves the node untouched (the
check precedes all mutation); and when the occupancy check passes the call
succeeds. -/
theorem c8_add_modification_occupancy :
    (∀ (m : Mono) (mo : Modification) (p : Pos) (maxOcc : Nat) (e : PyErr),
      m.isOccupied p = .error e →
      m.addModification mo p maxOcc = (m, some e)) ∧
    (∀ (m : Mono) (mo : Modification) (p : Pos) (maxOcc occ : Nat),
      m.isOccupied p = .ok occ →
      ((m.addModification mo p maxOcc).2 = some PyErr.valueError ↔
        occ > maxOcc)) ∧
    (∀ (m : Mono) (mo : Modification) (p : Pos) (maxOcc : Nat),
      (m.addModification mo p maxOcc).2.isSome = true →
      (m.addModification mo p maxOcc).1 = m) ∧
    (∀ (m : Mono) (mo : Modification) (p : Pos) (maxOcc occ : Nat),
      m.isOccupied p = .ok occ → occ ≤ maxOcc →
      (m.addModification mo p maxOcc).2 = none) := by
  refine ⟨?_, ?_, ?_, ?_⟩
  · intro m mo p maxOcc e h
    simp [Mono.addModification, h]
  · intro m mo p maxOcc occ h
    by_cases hgt : occ > maxOcc
    · simp [Mono.addModification, h, hgt]
    · by_cases hm : mo = .aldi <;>
        simp [Mono.addModification, h, hgt, hm]
  · intro m mo p maxOcc
    cases h : m.isOccupied p with
    | error e => simp [Mono.addModification, h]
    | ok occ =>
        by_cases hgt : occ > maxOcc
        · simp [Mono.addModification, h, hgt]
        · by_cases hm : mo = .aldi <;>
            simp [Mono.addModification, h, hgt, hm]
  · intro m mo p maxOcc occ h hle
    have hgt : ¬ (occ > maxOcc) := by omega
    by_cases hm : mo = .aldi <;>
      simp [Mono.addModification, h, hgt, hm]

/-- Witness for C8: a node carrying one `d` modification at position 3.
Re-adding at the occupied position with the default `max_occupancy=0` fails
with the occupancy error and leaves the node unchanged; with
`max_occupancy=1` the call succeeds. -/
theorem c8_add_modification_witness :
    (((hexBase.addModification .d (.i 3) 0).1.addModification .d (.i 3) 0).2 =
        some PyErr.valueError) ∧
      (((hexBase.addModification .d (.i 3) 0).1.addModification .d (.i 3) 0).1 =
        (hexBase.addModification .d (.i 3) 0).1) ∧
      (((hexBase.addModification .d (.i 3) 0).1.addModification .d (.i 3) 1).2 =
        none) := by
  have h := c8_add_modification_occupancy
  have hocc : (hexBase.addModification .d (.i 3) 0).1.isOccupied (.i 3) =
      .ok 1 := rfl
  refine ⟨(h.2.1 _ .d (.i 3) 0 1 hocc).mpr (by omega), ?_, ?_⟩
  · refine h.2.2.1 _ .d (.i 3) 0 ?_
    rw [(h.2.1 _ .d (.i 3) 0 1 hocc).mpr (by omega)]
    rfl
  · exact h.2.2.2 _ .d (.i 3) 1 1 hocc (by omega)

/-- Witness for C5: the amended theorem applied at concrete inputs. -/
theorem c5_remove_and_iteration_witness :
    ((OMM.buildPuts [(3, 7), (3, 8)] : OMM Nat Nat).pop 3 7).1.getList 3 =
        ((OMM.buildPuts [(3, 7), (3, 8)] : OMM Nat Nat).getList 3).erase 7 ∧
      ((OMM.buildPuts [(2, 5)] : OMM Nat Nat).pop 2 9).2 =
        Except.error PyErr.valueError ∧
      (OMM.buildPuts [(4, 1), (6, 2), (4, 3)] : OMM Nat Nat).keysList =
        OMM.firstKeys [(4, 1), (6, 2), (4, 3)] := by
  have h := c5_ordered_multimap_remove_and_iteration Nat Nat
  refine ⟨h.1 _ 3 7 (by decide), (h.2.2.1 _ 2 9 (by decide)).1,
    (h.2.2.2 [(4, 1), (6, 2), (4, 3)]).1⟩

end Pygly
